import Mathlib

/-! Reasoning budget normaliser and ERNIE streaming reducer.

A shallow embedding of

* `llms/options.go`: `ReasoningConfig.IsEnabled`, `ReasoningConfig.GetEffort`,
  `ReasoningConfig.GetTokens`, `CallOptions` and the option constructors;
* `llms/ernie/internal/ernieclient/chat.go`: the consumer loop of
  `parseStreamingChatResponse`, and the reader goroutine with it;
* `prompts/templates.go`: `RenderTemplate` and `CheckValidTemplate`.

Go's `int` is taken to be the 64-bit signed integer of the usual 64-bit
targets.  Values are mathematical integers; the only operation of the embedded
code that can leave the 64-bit range is `maxTokens*2`, which is wrapped
explicitly.  A pointer receiver that may be `nil` is an `Option`.
-/

namespace llms

/-! ## Machine integers -/

/-- Two's-complement wrap-around of a mathematical integer to the signed
64-bit range, the result Go gives for an overflowing `int` operation. -/
def wrapInt (x : Int) : Int := (x + 9223372036854775808) % 18446744073709551616 - 9223372036854775808

/-- Range of a Go `int` value. -/
def isInt (x : Int) : Prop := -9223372036854775808 ≤ x ∧ x < 9223372036854775808

instance (x : Int) : Decidable (isInt x) := by unfold isInt; infer_instance

/-- Go integer division `a / b`: the quotient is truncated toward zero. -/
def goDiv (a b : Int) : Int := Int.tdiv a b

/-! ## `llms/options.go` -/

/-- The constant `MaxReasoningTokens`. -/
def MaxReasoningTokens : Int := 64000

/-- The Go type `ReasoningEffort` is a string type: any string is a value of it. -/
abbrev ReasoningEffort := String

def ReasoningHigh : ReasoningEffort := "high"
def ReasoningMedium : ReasoningEffort := "medium"
def ReasoningLow : ReasoningEffort := "low"
def ReasoningNone : ReasoningEffort := ""

/-- The struct `ReasoningConfig`. -/
structure ReasoningConfig where
  Effort : ReasoningEffort
  Tokens : Int
  deriving DecidableEq, Repr

/-- The method `(*ReasoningConfig).IsEnabled`; `none` is the nil receiver. -/
def ReasoningConfig.IsEnabled (r : Option ReasoningConfig) : Bool :=
  match r with
  | none => false
  | some r =>
    if r.Effort = ReasoningNone ∧ r.Tokens = 0 then false
    else true

/-- The method `(*ReasoningConfig).GetEffort`; `none` is the nil receiver. -/
def ReasoningConfig.GetEffort (r : Option ReasoningConfig) (maxTokens : Int) : ReasoningEffort :=
  match r with
  | none => ReasoningNone
  | some r =>
    if r.Effort ≠ ReasoningNone then r.Effort
    else
      let maxTokens := if maxTokens ≤ 0 then 8192 else maxTokens
      if r.Tokens > 0 then
        if r.Tokens < goDiv maxTokens 4 then ReasoningLow
        else if r.Tokens < goDiv maxTokens 3 then ReasoningMedium
        else ReasoningHigh
      else ReasoningNone

/-- The method `(*ReasoningConfig).GetTokens`; `none` is the nil receiver.
The `switch` on the effort is the chain of comparisons with the four
constants, the last branch being its `default`. -/
def ReasoningConfig.GetTokens (r : Option ReasoningConfig) (maxTokens : Int) : Int :=
  match r with
  | none => 0
  | some r =>
    let maxTokens := if maxTokens ≤ 0 then 8192 else maxTokens
    let clamp (tokens : Int) : Int :=
      min (min tokens (goDiv (wrapInt (maxTokens * 2)) 3)) MaxReasoningTokens
    if r.Tokens > 0 then clamp r.Tokens
    else if r.Effort = ReasoningLow then clamp (max (goDiv maxTokens 4) 1024)
    else if r.Effort = ReasoningMedium then clamp (max (goDiv maxTokens 3) 2048)
    else if r.Effort = ReasoningHigh then clamp (max (goDiv maxTokens 2) 4096)
    else if r.Effort = ReasoningNone then 0
    else -1

/-- The round trip effort → tokens → effort: the budget `GetTokens` gives to
the configuration `{effort: e, tokens: 0}` is put, alone, into a configuration
that `GetEffort` then reads back. -/
def effortRoundTrip (e : ReasoningEffort) (maxTokens : Int) : ReasoningEffort :=
  ReasoningConfig.GetEffort
    (some { Effort := ReasoningNone,
            Tokens := ReasoningConfig.GetTokens (some { Effort := e, Tokens := 0 }) maxTokens })
    maxTokens

/-- The value `maxTokens` has inside both methods after their defaulting step. -/
def effectiveMaxTokens (maxTokens : Int) : Int := if maxTokens ≤ 0 then 8192 else maxTokens

/-- Reference definition of the token budget in the words of the
specification, over the mathematical integers: the base value is the explicit
token count when positive, otherwise the floor value of the effort level, and
it is clamped to two thirds of `maxTokens` and to the global ceiling. -/
def GetTokensRef (r : ReasoningConfig) (maxTokens : Int) : Int :=
  let m := if maxTokens ≤ 0 then 8192 else maxTokens
  let base :=
    if r.Tokens > 0 then r.Tokens
    else if r.Effort = "low" then max (m / 4) 1024
    else if r.Effort = "medium" then max (m / 3) 2048
    else max (m / 2) 4096
  min (min base (m * 2 / 3)) 64000

end llms

namespace streaming

/-! ## Package `llms/streaming` -/

/-- Modelled from the spec: the package `llms/streaming` is not among the
sources.  The chunk kinds are the closed set of the specification's chunk
taxonomy, under the constant names the callers use (`ChunkTypeNone`,
`ChunkTypeText`, `ChunkTypeReasoning`, `ChunkTypeToolCall`, `ChunkTypeDone`). -/
inductive ChunkType where
  | None
  | Text
  | Reasoning
  | ToolCall
  | Done
  deriving DecidableEq, Repr

/-- Modelled from the spec: the tool-call payload `{id, name, argumentsDelta}`,
with the field names that `parseStreamingChatResponse` fills in. -/
structure ToolCall where
  ID : String
  Name : String
  Arguments : String
  deriving DecidableEq, Repr

/-- Modelled from the spec: a chunk is a kind together with the payload of that
kind; the fields are the ones the callers read (`chunk.Type`, here `Type_`, `chunk.Content`,
`chunk.ReasoningContent`, `chunk.ToolCall`), and the fields of the other kinds
hold Go zero values. -/
structure Chunk where
  Type_ : ChunkType
  Content : String
  ReasoningContent : String
  ToolCall : ToolCall
  deriving DecidableEq, Repr

/-- Go error values: an error created from a message, or an error that wraps
another one, as `fmt.Errorf` builds for the verb `%w`. -/
inductive GoError where
  | errorString (s : String)
  | wrapError (msg : String) (err : GoError)
  deriving DecidableEq, Repr

/-- The method `Error()` of an error value. -/
def GoError.Error : GoError → String
  | .errorString s => s
  | .wrapError msg _ => msg

/-- The function `errors.Unwrap`. -/
def GoError.Unwrap : GoError → Option GoError
  | .errorString _ => none
  | .wrapError _ err => some err

/-- The call `fmt.Errorf(format, err)` for a format that is the text `msg`
followed by the verb `%w`. -/
def fmtErrorf (msg : String) (err : GoError) : GoError :=
  .wrapError (msg ++ err.Error) err

/-- Modelled from the spec: a sink is a callback invoked synchronously, once
per chunk, that returns an error or nil.  A Go closure may keep state between
invocations, so its answer is a function of the chunks it was invoked with
before (first argument, oldest first) and of the current chunk.  The context
argument is left out.  `none` is the nil callback. -/
abbrev Callback := Option (List Chunk → Chunk → Option GoError)

/-- Modelled from the spec: builder of a text chunk. -/
def NewTextChunk (text : String) : Chunk :=
  { Type_ := .Text, Content := text, ReasoningContent := "", ToolCall := ⟨"", "", ""⟩ }

/-- Modelled from the spec: builder of a reasoning chunk. -/
def NewReasoningChunk (reasoning : String) : Chunk :=
  { Type_ := .Reasoning, Content := "", ReasoningContent := reasoning, ToolCall := ⟨"", "", ""⟩ }

/-- Modelled from the spec: builder of a tool-call chunk. -/
def NewToolCallChunk (toolCall : ToolCall) : Chunk :=
  { Type_ := .ToolCall, Content := "", ReasoningContent := "", ToolCall := toolCall }

/-- Modelled from the spec: builder of the terminal chunk. -/
def NewDoneChunk : Chunk :=
  { Type_ := .Done, Content := "", ReasoningContent := "", ToolCall := ⟨"", "", ""⟩ }

end streaming

namespace ernieclient

open streaming

/-! ## `llms/ernie/internal/ernieclient/chat.go` -/

/-- The struct `FunctionCallRes`. -/
structure FunctionCallRes where
  Name : String
  Thoughts : String
  Arguments : String
  deriving DecidableEq, Repr

/-- The anonymous struct of the `Usage` fields. -/
structure Usage where
  PromptTokens : Int
  CompletionTokens : Int
  TotalTokens : Int
  deriving DecidableEq, Repr

/-- The struct `ChatResponse`. -/
structure ChatResponse where
  ID : String
  Object : String
  Created : Int
  Result : String
  IsTruncated : Bool
  NeedClearHistory : Bool
  FunctionCall : Option FunctionCallRes
  Usage : Usage
  deriving DecidableEq, Repr

/-- The struct `StreamedChatResponsePayload`. -/
structure StreamedChatResponsePayload where
  ID : String
  Object : String
  Created : Int
  SentenceID : Int
  IsEnd : Bool
  IsTruncated : Bool
  Result : String
  NeedClearHistory : Bool
  FunctionCall : Option FunctionCallRes
  Usage : Usage
  deriving DecidableEq, Repr

/-- The composite literal `ChatResponse{}`: every field has its zero value. -/
def ChatResponse.zero : ChatResponse :=
  { ID := "", Object := "", Created := 0, Result := "", IsTruncated := false,
    NeedClearHistory := false, FunctionCall := none, Usage := ⟨0, 0, 0⟩ }

/-- What an observer of one call of `parseStreamingChatResponse` sees, in
order: the loop taking a payload from the channel and folding it into the
response, and the sink being invoked with a chunk. -/
inductive Event where
  | fold (p : StreamedChatResponsePayload)
  | call (c : Chunk)
  deriving DecidableEq, Repr

/-- The chunks the sink was invoked with, in order. -/
def callsOf : List Event → List Chunk
  | [] => []
  | .fold _ :: tr => callsOf tr
  | .call c :: tr => c :: callsOf tr

/-- Modelled from the spec: the common body of the dispatch helpers of the
absent package `llms/streaming`, the invocation of the callback with one
chunk.  Nothing happens for a nil callback; otherwise the invocation is
recorded and the callback answers from its history. -/
def invoke (cb : Callback) (trace : List Event) (chunk : Chunk) : List Event × Option GoError :=
  match cb with
  | none => (trace, none)
  | some f => (trace ++ [Event.call chunk], f (callsOf trace) chunk)

/-- Modelled from the spec: the helper `streaming.CallWithText` of the absent
package `llms/streaming`; it dispatches a text chunk to the sink, and all
dispatch is skipped when the caller supplied no sink. -/
def CallWithText (cb : Callback) (trace : List Event) (text : String) :
    List Event × Option GoError :=
  invoke cb trace (NewTextChunk text)

/-- Modelled from the spec: the helper `streaming.CallWithReasoning` of the
absent package `llms/streaming`, as `CallWithText` for a reasoning chunk. -/
def CallWithReasoning (cb : Callback) (trace : List Event) (reasoning : String) :
    List Event × Option GoError :=
  invoke cb trace (NewReasoningChunk reasoning)

/-- Modelled from the spec: the helper `streaming.CallWithToolCall` of the
absent package `llms/streaming`, as `CallWithText` for a tool-call chunk. -/
def CallWithToolCall (cb : Callback) (trace : List Event) (toolCall : ToolCall) :
    List Event × Option GoError :=
  invoke cb trace (NewToolCallChunk toolCall)

/-- Modelled from the spec: the helper `streaming.CallWithDone` of the absent
package `llms/streaming`; it dispatches the terminal chunk to the sink. -/
def CallWithDone (cb : Callback) (trace : List Event) : List Event × Option GoError :=
  invoke cb trace NewDoneChunk

/-- The local variables of `parseStreamingChatResponse` that the loop updates,
with the record of what has been observed so far. -/
structure LoopState where
  response : ChatResponse
  toolCallID : Nat
  trace : List Event
  deriving DecidableEq, Repr

/-- The closure `incToolCallID`.  The parameter `jsonValid` stands for
`json.Unmarshal` of the standard library returning a nil error. -/
def incToolCallID (jsonValid : String → Bool) (toolCallID : Nat) (args : String) : Nat :=
  if jsonValid args ∧ args ≠ "" then toolCallID + 1 else toolCallID

/-- The wrapping of a sink error done at each of the three `return nil, ...`
statements of the loop. -/
def sinkError (err : GoError) : GoError :=
  fmtErrorf "streaming func returned an error: " err

/-- The last part of the loop body: the text chunk is dispatched.  The second
component is the error of an early `return nil, err`. -/
def textStep (cb : Callback) (s : LoopState) (chunk : String) : LoopState × Option GoError :=
  match CallWithText cb s.trace chunk with
  | (tr, some err) => ({ s with trace := tr }, some (sinkError err))
  | (tr, none) => ({ s with trace := tr }, none)

/-- One iteration of the loop `for streamResponse := range responseChan`, up
to the test of `IsEnd`.  The second component is the error of an early
`return nil, err`. -/
def loopBody (jsonValid : String → Bool) (cb : Callback) (s : LoopState)
    (streamResponse : StreamedChatResponsePayload) : LoopState × Option GoError :=
  let chunk := streamResponse.Result
  let s : LoopState :=
    { s with
      response := { s.response with
        Result := s.response.Result ++ streamResponse.Result,
        IsTruncated := streamResponse.IsTruncated },
      trace := s.trace ++ [Event.fold streamResponse] }
  match streamResponse.FunctionCall with
  | some functionCall =>
    let s : LoopState :=
      { s with response := { s.response with FunctionCall := some functionCall } }
    let toolCall : ToolCall :=
      { ID := "call-" ++ toString s.toolCallID,
        Name := functionCall.Name,
        Arguments := functionCall.Arguments }
    let s : LoopState :=
      { s with toolCallID := incToolCallID jsonValid s.toolCallID functionCall.Arguments }
    match CallWithToolCall cb s.trace toolCall with
    | (tr, some err) => ({ s with trace := tr }, some (sinkError err))
    | (tr, none) =>
      match CallWithReasoning cb tr functionCall.Thoughts with
      | (tr, some err) => ({ s with trace := tr }, some (sinkError err))
      | (tr, none) => textStep cb { s with trace := tr } chunk
  | none => textStep cb s chunk

/-- The loop `for streamResponse := range responseChan`: the list is the
sequence of payloads the channel delivers until it is closed.  The loop ends
when the channel is closed, at the `break` after a payload with `IsEnd`, or at
an early `return` with a sink error. -/
def rangeLoop (jsonValid : String → Bool) (cb : Callback) :
    List StreamedChatResponsePayload → LoopState → LoopState × Option GoError
  | [], s => (s, none)
  | streamResponse :: rest, s =>
    match loopBody jsonValid cb s streamResponse with
    | (s, some err) => (s, some err)
    | (s, none) => if streamResponse.IsEnd then (s, none) else rangeLoop jsonValid cb rest s

/-- Result of one call of `parseStreamingChatResponse`: the two return values
and the record of what happened during the call. -/
structure Outcome where
  response : Option ChatResponse
  err : Option GoError
  trace : List Event
  deriving DecidableEq, Repr

/-- The chunks the sink was invoked with during the call, in order. -/
def Outcome.calls (o : Outcome) : List Chunk := callsOf o.trace

/-- The consumer part of `parseStreamingChatResponse`, from
`response := ChatResponse{}` on.  `payloads` is the sequence of payloads
received from `responseChan`, `cb` is `payload.StreamingFunc`.  The deferred
`streaming.CallWithDone` runs at every return, after the return values are
set, and its own result is dropped. -/
def parseStreamingChatResponse (jsonValid : String → Bool) (cb : Callback)
    (payloads : List StreamedChatResponsePayload) : Outcome :=
  match rangeLoop jsonValid cb payloads
      { response := ChatResponse.zero, toolCallID := 0, trace := [] } with
  | (s, some err) =>
    { response := none, err := some err, trace := (CallWithDone cb s.trace).1 }
  | (s, none) =>
    { response := some s.response, err := none, trace := (CallWithDone cb s.trace).1 }

/-- Concatenation of a list of strings, in order. -/
def concatStrings : List String → String
  | [] => ""
  | s :: rest => s ++ concatStrings rest

/-- The text a sink collects as the tests do: the `Content` of every chunk of
kind text, concatenated in the order of delivery. -/
def sinkText : List Chunk → String
  | [] => ""
  | c :: cs => (if c.Type_ = ChunkType.Text then c.Content else "") ++ sinkText cs

/-- The payloads of a sequence up to and including the first one with
`is_end` set (all of them when none has it). -/
def throughEnd : List StreamedChatResponsePayload → List StreamedChatResponsePayload
  | [] => []
  | p :: rest => if p.IsEnd then [p] else p :: throughEnd rest

/-- A payload that carries only a result text. -/
def textPayload (result : String) (isEnd : Bool) : StreamedChatResponsePayload :=
  { ID := "", Object := "", Created := 0, SentenceID := 0, IsEnd := isEnd, IsTruncated := false,
    Result := result, NeedClearHistory := false, FunctionCall := none, Usage := ⟨0, 0, 0⟩ }

/-- A sink that accepts every chunk. -/
def acceptAll : List Chunk → Chunk → Option GoError := fun _ _ => none

/-- A sink that counts its invocations and returns the error `e` on the one
numbered `k` (from 0), and nil on all others. -/
def failAt (k : Nat) (e : GoError) : List Chunk → Chunk → Option GoError :=
  fun history _ => if history.length = k then some e else none

/-- Every invocation recorded in the trace `tr`, made by a sink whose history
before the trace is `history`, carried a chunk other than the terminal one and
was answered with a nil error. -/
def sinkAccepted (f : List Chunk → Chunk → Option GoError) : List Event → List Chunk → Prop
  | [], _ => True
  | .fold _ :: tr, history => sinkAccepted f tr history
  | .call c :: tr, history =>
    f history c = none ∧ c.Type_ ≠ ChunkType.Done ∧ sinkAccepted f tr (history ++ [c])

/-- How the loop can stand after some iterations: either it has not returned
and every invocation so far was accepted, or it has returned the wrapped error
of the invocation it made last, all earlier ones having been accepted. -/
def LoopOutcome (f : List Chunk → Chunk → Option GoError) (r : LoopState × Option GoError) : Prop :=
  (r.2 = none ∧ sinkAccepted f r.1.trace []) ∨
  (∃ tr c e, r.1.trace = tr ++ [Event.call c] ∧ sinkAccepted f tr [] ∧
    f (callsOf tr) c = some e ∧ c.Type_ ≠ ChunkType.Done ∧ r.2 = some (sinkError e))

/-- The error value `errors.New("stop")`, for the examples. -/
def stopError : GoError := .errorString "stop"

/-- A stream of three text payloads, the last one terminal, for the examples. -/
def threeTexts : List StreamedChatResponsePayload :=
  [textPayload "ab" false, textPayload "cd" false, textPayload "ef" true]

end ernieclient

namespace llms

/-! ## `llms/options.go`: call options -/

/-- The struct `FunctionDefinition`.  `Any` stands for the Go type `any`. -/
structure FunctionDefinition (Any : Type) where
  Name : String
  Description : String
  Parameters : Any
  Strict : Bool

/-- The struct `Tool`. -/
structure Tool (Any : Type) where
  Type_ : String
  Function : Option (FunctionDefinition Any)

/-- The Go type `FunctionCallBehavior` is a string type. -/
abbrev FunctionCallBehavior := String

/-- The struct `CallOptions`, field by field.  `Float64` stands for the Go type
`float64` and `Any` for `any`; the options only store values of these types.
A slice is a list, the map of the metadata a partial function on its keys, and
the pointer `*ReasoningConfig` an `Option`. -/
structure CallOptions (Float64 Any : Type) where
  Model : String
  CandidateCount : Int
  MaxTokens : Int
  Temperature : Float64
  StopWords : List String
  StreamingFunc : streaming.Callback
  TopK : Int
  TopP : Float64
  Seed : Int
  MinLength : Int
  MaxLength : Int
  N : Int
  RepetitionPenalty : Float64
  FrequencyPenalty : Float64
  PresencePenalty : Float64
  Reasoning : Option ReasoningConfig
  JSONMode : Bool
  Tools : List (Tool Any)
  ToolChoice : Any
  Functions : List (FunctionDefinition Any)
  FunctionCallBehavior : FunctionCallBehavior
  Metadata : String → Option Any
  ResponseMIMEType : String
  Voice : String
  Speed : Float64
  ResponseFormat : String

/-- The type `CallOption`, a function `func(*CallOptions)`: the update it makes
to the options it is applied to. -/
abbrev CallOption (Float64 Any : Type) := CallOptions Float64 Any → CallOptions Float64 Any

/-- The option constructor `WithReasoning`. -/
def WithReasoning {Float64 Any : Type} (effort : ReasoningEffort) (tokens : Int) :
    CallOption Float64 Any :=
  fun o => { o with Reasoning := some { Effort := effort, Tokens := tokens } }

end llms

namespace strings

/-! ## Functions of the Go package `strings` used by the reader -/

/-- The function `strings.HasPrefix`. -/
def HasPrefix (s pre : String) : Bool := pre.data.isPrefixOf s.data

/-- The function `strings.TrimPrefix`. -/
def TrimPrefix (s pre : String) : String :=
  if HasPrefix s pre then ⟨s.data.drop pre.data.length⟩ else s

/-- Whether the list `sub` occurs in the list `l` as a block. -/
def containsList (sub : List Char) : List Char → Bool
  | [] => sub.isEmpty
  | c :: l => sub.isPrefixOf (c :: l) || containsList sub l

/-- The function `strings.Contains`. -/
def Contains (s substr : String) : Bool := containsList substr.data s.data

end strings

namespace ernieclient

open streaming

/-! ## `chat.go`: the reader goroutine together with the consumer -/

/-- The constant `streamStopFlag`. -/
def streamStopFlag : String := "\"is_end\": true"

/-- What the scanner makes of the response body: the lines for which
`scanner.Scan()` returns true, in order, and the value of `scanner.Err()` once
it has returned false (nil at the end of the body, an error when reading the
body failed). -/
structure Body where
  lines : List String
  scanErr : Option GoError

/-- How a call of `parseStreamingChatResponse` on a body ends.  `returned`: the
call returns to its caller and the process lives on; `logged` are the lines
printed with `log.Println`.  `exited`: `log.Fatalf` in the reader goroutine
terminates the process with the given message.  When the reader reaches
`log.Fatalf` after the consumer has stopped receiving, whether the call had
returned to its caller the instant before is a matter of scheduling; the
process is terminated in either case and the result is `exited`. -/
inductive ProcessResult where
  | returned (o : Outcome) (logged : List String)
  | exited (msg : String)
  deriving DecidableEq, Repr

/-- The two return statements of the consumer, with the deferred
`streaming.CallWithDone`, as in `parseStreamingChatResponse` on payloads. -/
def returnOutcome (cb : Callback) (r : LoopState × Option GoError) : Outcome :=
  match r with
  | (s, some err) =>
    { response := none, err := some err, trace := (CallWithDone cb s.trace).1 }
  | (s, none) =>
    { response := some s.response, err := none, trace := (CallWithDone cb s.trace).1 }

/-- The reader goroutine after the consumer has stopped receiving (it has
returned early or left the loop at `break`) with the result `o`: the reader
goes on scanning.  Empty lines are skipped; a line without the prefix `data:`
and a payload that does not decode reach `log.Fatalf`; a payload that decodes
is sent on the channel, where nobody receives any more, so the goroutine
blocks for good; at the end of the body `scanner.Err()` is printed if it is
not nil. -/
def scanAhead (decode : String → Except String StreamedChatResponsePayload)
    (scanErr : Option GoError) (o : Outcome) : List String → ProcessResult
  | [] =>
    match scanErr with
    | some err => .returned o ["issue scanning response: " ++ err.Error]
    | none => .returned o []
  | line :: rest =>
    if line = "" then scanAhead decode scanErr o rest
    else if ¬ strings.HasPrefix line "data:" then .exited ("unexpected line: " ++ line)
    else
      match decode (strings.TrimPrefix line "data: ") with
      | .error msg => .exited ("failed to decode stream payload: " ++ msg)
      | .ok _ => .returned o []

/-- The reader goroutine and the consumer loop, line by line.  The channel is
unbuffered, so the reader scans a line only after the consumer has received
every earlier payload.  `decode` stands for `json.NewDecoder(...).Decode` of
the standard library: the payload, or the text of its error.

* an empty line is skipped;
* a line without the prefix `data:` and a payload that does not decode reach
  `log.Fatalf`;
* a decoded payload is sent and handled by one iteration of the consumer loop;
* after a payload whose text contains `streamStopFlag` the reader returns and
  closes the channel, which ends the consumer loop if it has not ended;
* when the consumer returns early or leaves the loop at `break` and the reader
  has not returned, the reader scans ahead (`scanAhead`);
* when `scanner.Scan()` returns false, `scanner.Err()` is printed if it is not
  nil and the channel is closed, which ends the consumer loop. -/
def streamLines (decode : String → Except String StreamedChatResponsePayload)
    (jsonValid : String → Bool) (cb : Callback) (scanErr : Option GoError) :
    List String → LoopState → ProcessResult
  | [], s =>
    match scanErr with
    | some err => .returned (returnOutcome cb (s, none)) ["issue scanning response: " ++ err.Error]
    | none => .returned (returnOutcome cb (s, none)) []
  | line :: rest, s =>
    if line = "" then streamLines decode jsonValid cb scanErr rest s
    else if ¬ strings.HasPrefix line "data:" then .exited ("unexpected line: " ++ line)
    else
      let data := strings.TrimPrefix line "data: "
      match decode data with
      | .error msg => .exited ("failed to decode stream payload: " ++ msg)
      | .ok streamPayload =>
        match loopBody jsonValid cb s streamPayload with
        | (s, some err) =>
          if strings.Contains data streamStopFlag then
            .returned (returnOutcome cb (s, some err)) []
          else scanAhead decode scanErr (returnOutcome cb (s, some err)) rest
        | (s, none) =>
          if strings.Contains data streamStopFlag then
            .returned (returnOutcome cb (s, none)) []
          else if streamPayload.IsEnd then
            scanAhead decode scanErr (returnOutcome cb (s, none)) rest
          else streamLines decode jsonValid cb scanErr rest s

/-- The function `parseStreamingChatResponse` on a response body. -/
def parseStreamingChatResponseBody (decode : String → Except String StreamedChatResponsePayload)
    (jsonValid : String → Bool) (cb : Callback) (body : Body) : ProcessResult :=
  streamLines decode jsonValid cb body.scanErr body.lines
    { response := ChatResponse.zero, toolCallID := 0, trace := [] }

/-- A payload that carries a function call with the given arguments and no
result text. -/
def functionCallPayload (name arguments : String) : StreamedChatResponsePayload :=
  { ID := "", Object := "", Created := 0, SentenceID := 0, IsEnd := false, IsTruncated := false,
    Result := "", NeedClearHistory := false,
    FunctionCall := some { Name := name, Thoughts := "", Arguments := arguments },
    Usage := ⟨0, 0, 0⟩ }

/-- The arguments a sink collects for the tool call `id` as the tests do: the
`Arguments` of every tool-call chunk with that id, concatenated in the order
of delivery. -/
def sinkArguments (id : String) : List Chunk → String
  | [] => ""
  | c :: cs =>
    (if c.Type_ = ChunkType.ToolCall ∧ c.ToolCall.ID = id then c.ToolCall.Arguments else "")
      ++ sinkArguments id cs

/-- A decoder for the examples: it knows the text of one payload, a result
`ab` that is not terminal, and rejects every other text. -/
def decodeExample (data : String) : Except String StreamedChatResponsePayload :=
  if data = "\x7b\"result\":\"ab\"\x7d" then .ok (textPayload "ab" false)
  else .error "invalid character"

end ernieclient


namespace llms

/-! ## `llms/options.go`: the option constructors -/

/-- The option constructor `WithModel`. -/
def WithModel {Float64 Any : Type} (model : String) : CallOption Float64 Any :=
  fun o => { o with Model := model }

/-- The option constructor `WithMaxTokens`. -/
def WithMaxTokens {Float64 Any : Type} (maxTokens : Int) : CallOption Float64 Any :=
  fun o => { o with MaxTokens := maxTokens }

/-- The option constructor `WithCandidateCount`. -/
def WithCandidateCount {Float64 Any : Type} (c : Int) : CallOption Float64 Any :=
  fun o => { o with CandidateCount := c }

/-- The option constructor `WithTemperature`. -/
def WithTemperature {Float64 Any : Type} (temperature : Float64) : CallOption Float64 Any :=
  fun o => { o with Temperature := temperature }

/-- The option constructor `WithStopWords`. -/
def WithStopWords {Float64 Any : Type} (stopWords : List String) : CallOption Float64 Any :=
  fun o => { o with StopWords := stopWords }

/-- The option constructor `WithStreamingFunc`. -/
def WithStreamingFunc {Float64 Any : Type} (streamingFunc : streaming.Callback) : CallOption Float64 Any :=
  fun o => { o with StreamingFunc := streamingFunc }

/-- The option constructor `WithTopK`. -/
def WithTopK {Float64 Any : Type} (topK : Int) : CallOption Float64 Any :=
  fun o => { o with TopK := topK }

/-- The option constructor `WithTopP`. -/
def WithTopP {Float64 Any : Type} (topP : Float64) : CallOption Float64 Any :=
  fun o => { o with TopP := topP }

/-- The option constructor `WithSeed`. -/
def WithSeed {Float64 Any : Type} (seed : Int) : CallOption Float64 Any :=
  fun o => { o with Seed := seed }

/-- The option constructor `WithMinLength`. -/
def WithMinLength {Float64 Any : Type} (minLength : Int) : CallOption Float64 Any :=
  fun o => { o with MinLength := minLength }

/-- The option constructor `WithMaxLength`. -/
def WithMaxLength {Float64 Any : Type} (maxLength : Int) : CallOption Float64 Any :=
  fun o => { o with MaxLength := maxLength }

/-- The option constructor `WithN`. -/
def WithN {Float64 Any : Type} (n : Int) : CallOption Float64 Any :=
  fun o => { o with N := n }

/-- The option constructor `WithRepetitionPenalty`. -/
def WithRepetitionPenalty {Float64 Any : Type} (repetitionPenalty : Float64) : CallOption Float64 Any :=
  fun o => { o with RepetitionPenalty := repetitionPenalty }

/-- The option constructor `WithFrequencyPenalty`. -/
def WithFrequencyPenalty {Float64 Any : Type} (frequencyPenalty : Float64) : CallOption Float64 Any :=
  fun o => { o with FrequencyPenalty := frequencyPenalty }

/-- The option constructor `WithPresencePenalty`. -/
def WithPresencePenalty {Float64 Any : Type} (presencePenalty : Float64) : CallOption Float64 Any :=
  fun o => { o with PresencePenalty := presencePenalty }

/-- The option constructor `WithFunctionCallBehavior`. -/
def WithFunctionCallBehavior {Float64 Any : Type} (behavior : FunctionCallBehavior) : CallOption Float64 Any :=
  fun o => { o with FunctionCallBehavior := behavior }

/-- The option constructor `WithFunctions`. -/
def WithFunctions {Float64 Any : Type} (functions : List (FunctionDefinition Any)) : CallOption Float64 Any :=
  fun o => { o with Functions := functions }

/-- The option constructor `WithToolChoice`. -/
def WithToolChoice {Float64 Any : Type} (choice : Any) : CallOption Float64 Any :=
  fun o => { o with ToolChoice := choice }

/-- The option constructor `WithTools`. -/
def WithTools {Float64 Any : Type} (tools : List (Tool Any)) : CallOption Float64 Any :=
  fun o => { o with Tools := tools }

/-- The option constructor `WithMetadata`. -/
def WithMetadata {Float64 Any : Type} (metadata : String → Option Any) : CallOption Float64 Any :=
  fun o => { o with Metadata := metadata }

/-- The option constructor `WithResponseMIMEType`. -/
def WithResponseMIMEType {Float64 Any : Type} (responseMIMEType : String) : CallOption Float64 Any :=
  fun o => { o with ResponseMIMEType := responseMIMEType }

/-- The option constructor `WithVoice`. -/
def WithVoice {Float64 Any : Type} (voice : String) : CallOption Float64 Any :=
  fun o => { o with Voice := voice }

/-- The option constructor `WithSpeed`. -/
def WithSpeed {Float64 Any : Type} (speed : Float64) : CallOption Float64 Any :=
  fun o => { o with Speed := speed }

/-- The option constructor `WithResponseFormat`. -/
def WithResponseFormat {Float64 Any : Type} (responseFormat : String) : CallOption Float64 Any :=
  fun o => { o with ResponseFormat := responseFormat }

/-- The option constructor `WithJSONMode`. -/
def WithJSONMode {Float64 Any : Type} : CallOption Float64 Any :=
  fun o => { o with JSONMode := true }

/-- The option constructor `WithOptions`: the assignment `(*o) = options`. -/
def WithOptions {Float64 Any : Type} (options : CallOptions Float64 Any) : CallOption Float64 Any :=
  fun _ => options

/-- The names of the fields of `CallOptions`. -/
inductive Field where
  | Model
  | CandidateCount
  | MaxTokens
  | Temperature
  | StopWords
  | StreamingFunc
  | TopK
  | TopP
  | Seed
  | MinLength
  | MaxLength
  | N
  | RepetitionPenalty
  | FrequencyPenalty
  | PresencePenalty
  | Reasoning
  | JSONMode
  | Tools
  | ToolChoice
  | Functions
  | FunctionCallBehavior
  | Metadata
  | ResponseMIMEType
  | Voice
  | Speed
  | ResponseFormat
  deriving DecidableEq, Repr

/-- Two values of `CallOptions` agree on every field other than `fld`. -/
def sameExcept {Float64 Any : Type} (fld : Field) (a b : CallOptions Float64 Any) : Prop :=
  (fld ≠ Field.Model → a.Model = b.Model) ∧
  (fld ≠ Field.CandidateCount → a.CandidateCount = b.CandidateCount) ∧
  (fld ≠ Field.MaxTokens → a.MaxTokens = b.MaxTokens) ∧
  (fld ≠ Field.Temperature → a.Temperature = b.Temperature) ∧
  (fld ≠ Field.StopWords → a.StopWords = b.StopWords) ∧
  (fld ≠ Field.StreamingFunc → a.StreamingFunc = b.StreamingFunc) ∧
  (fld ≠ Field.TopK → a.TopK = b.TopK) ∧
  (fld ≠ Field.TopP → a.TopP = b.TopP) ∧
  (fld ≠ Field.Seed → a.Seed = b.Seed) ∧
  (fld ≠ Field.MinLength → a.MinLength = b.MinLength) ∧
  (fld ≠ Field.MaxLength → a.MaxLength = b.MaxLength) ∧
  (fld ≠ Field.N → a.N = b.N) ∧
  (fld ≠ Field.RepetitionPenalty → a.RepetitionPenalty = b.RepetitionPenalty) ∧
  (fld ≠ Field.FrequencyPenalty → a.FrequencyPenalty = b.FrequencyPenalty) ∧
  (fld ≠ Field.PresencePenalty → a.PresencePenalty = b.PresencePenalty) ∧
  (fld ≠ Field.Reasoning → a.Reasoning = b.Reasoning) ∧
  (fld ≠ Field.JSONMode → a.JSONMode = b.JSONMode) ∧
  (fld ≠ Field.Tools → a.Tools = b.Tools) ∧
  (fld ≠ Field.ToolChoice → a.ToolChoice = b.ToolChoice) ∧
  (fld ≠ Field.Functions → a.Functions = b.Functions) ∧
  (fld ≠ Field.FunctionCallBehavior → a.FunctionCallBehavior = b.FunctionCallBehavior) ∧
  (fld ≠ Field.Metadata → a.Metadata = b.Metadata) ∧
  (fld ≠ Field.ResponseMIMEType → a.ResponseMIMEType = b.ResponseMIMEType) ∧
  (fld ≠ Field.Voice → a.Voice = b.Voice) ∧
  (fld ≠ Field.Speed → a.Speed = b.Speed) ∧
  (fld ≠ Field.ResponseFormat → a.ResponseFormat = b.ResponseFormat)

end llms

namespace prompts

open streaming

/-! ## `prompts/templates.go` -/

/-- The function `errors.Is`: the error is the target, or wraps, at some
depth, an error that is. -/
def errorsIs : GoError → GoError → Bool
  | .errorString s, target => decide (GoError.errorString s = target)
  | .wrapError msg err, target =>
    decide (GoError.wrapError msg err = target) || errorsIs err target

/-- The variable `ErrInvalidTemplateFormat`. -/
def ErrInvalidTemplateFormat : GoError := .errorString "invalid template format"

/-- The Go type `TemplateFormat` is a string type. -/
abbrev TemplateFormat := String

def TemplateFormatGoTemplate : TemplateFormat := "go-template"
def TemplateFormatJinja2 : TemplateFormat := "jinja2"
def TemplateFormatFString : TemplateFormat := "f-string"

/-- The type `interpolator`; a map `map[string]any` is a partial function on
its keys and `Any` stands for the Go type `any`. -/
abbrev interpolator (Any : Type) := String → (String → Option Any) → String × Option GoError

/-- The three rendering engines, which are libraries outside the sources
(`text/template`, `gonja`, and the package `fstring`), and the conversion of a
Go string to a value of type `any`. -/
structure Engines (Any : Type) where
  interpolateGoTemplate : interpolator Any
  interpolateJinja2 : interpolator Any
  fstringFormat : interpolator Any
  ofString : String → Any

/-- The variable `defaultFormatterMapping`, as the lookup
`defaultFormatterMapping[format]`: the interpolator, or `none` when the format
is not a key of the map. -/
def defaultFormatterMapping {Any : Type} (engines : Engines Any) (format : TemplateFormat) :
    Option (interpolator Any) :=
  if format = TemplateFormatGoTemplate then some engines.interpolateGoTemplate
  else if format = TemplateFormatJinja2 then some engines.interpolateJinja2
  else if format = TemplateFormatFString then some engines.fstringFormat
  else none

/-- The function `newInvalidTemplateError`: the call of `fmt.Errorf` with the
format `%w, got: %s, should be one of %s` on the sorted keys of the map, which
print as `[f-string go-template jinja2]`. -/
def newInvalidTemplateError (gotTemplateFormat : TemplateFormat) : GoError :=
  .wrapError
    (ErrInvalidTemplateFormat.Error ++ ", got: " ++ gotTemplateFormat
      ++ ", should be one of [f-string go-template jinja2]")
    ErrInvalidTemplateFormat

/-- The function `RenderTemplate`. -/
def RenderTemplate {Any : Type} (engines : Engines Any) (tmpl : String)
    (tmplFormat : TemplateFormat) (values : String → Option Any) : String × Option GoError :=
  match defaultFormatterMapping engines tmplFormat with
  | none => ("", some (newInvalidTemplateError tmplFormat))
  | some formatter => formatter tmpl values

/-- The function `CheckValidTemplate`. -/
def CheckValidTemplate {Any : Type} (engines : Engines Any) (template : String)
    (templateFormat : TemplateFormat) (inputVariables : List String) : Option GoError :=
  match defaultFormatterMapping engines templateFormat with
  | none => some (newInvalidTemplateError templateFormat)
  | some _ =>
    let dummyInputs : String → Option Any :=
      fun v => if v ∈ inputVariables then some (engines.ofString "foo") else none
    (RenderTemplate engines template templateFormat dummyInputs).2

/-- Rendering engines for the examples: each returns the template unchanged. -/
def exampleEngines : Engines String :=
  { interpolateGoTemplate := fun t _ => (t, none),
    interpolateJinja2 := fun t _ => (t, none),
    fstringFormat := fun t _ => (t, none),
    ofString := fun s => s }

end prompts

namespace ernieclient

open streaming

/-! ## Dispatch order and tool-call ids -/

/-- The payloads the loop has taken from the channel, in order, as recorded in
a trace. -/
def foldsOf : List Event → List StreamedChatResponsePayload
  | [] => []
  | .fold p :: tr => p :: foldsOf tr
  | .call _ :: tr => foldsOf tr

/-- A payload that carries a function call whose arguments string is not empty
and is by itself valid JSON. -/
def completeCall (jsonValid : String → Bool) (p : StreamedChatResponsePayload) : Bool :=
  match p.FunctionCall with
  | some functionCall => jsonValid functionCall.Arguments && decide (functionCall.Arguments ≠ "")
  | none => false

/-- The number of payloads of a list that carry a function call whose arguments
string is not empty and is by itself valid JSON. -/
def completeCallsIn (jsonValid : String → Bool) (earlier : List StreamedChatResponsePayload) :
    Nat :=
  (earlier.filter (completeCall jsonValid)).length

/-- The chunks one payload is expected to produce, in order: a tool-call chunk
with the given id and a reasoning chunk when the payload has a function call,
then a text chunk with the payload's result. -/
def payloadChunks (id : String) (p : StreamedChatResponsePayload) : List Chunk :=
  (match p.FunctionCall with
    | some functionCall =>
      [NewToolCallChunk ⟨id, functionCall.Name, functionCall.Arguments⟩,
        NewReasoningChunk functionCall.Thoughts]
    | none => []) ++ [NewTextChunk p.Result]

/-- The chunks a sequence of payloads is expected to produce, payload by
payload in stream order; `earlier` are the payloads that came before, and the
id of a tool call is `call-k` for k the number of complete calls among them. -/
def expectedCalls (jsonValid : String → Bool) :
    List StreamedChatResponsePayload → List StreamedChatResponsePayload → List Chunk
  | _, [] => []
  | earlier, p :: rest =>
    payloadChunks ("call-" ++ toString (completeCallsIn jsonValid earlier)) p
      ++ expectedCalls jsonValid (earlier ++ [p]) rest

/-- Every tool-call chunk recorded in the trace `tr` belongs to the payload
folded last before it, carries the name and arguments of that payload's
function call, and has the id `call-k` for k the number of complete calls
among the payloads folded earlier; `folded` are the payloads folded before the
trace. -/
def toolCallIdsOK (jsonValid : String → Bool) :
    List Event → List StreamedChatResponsePayload → Prop
  | [], _ => True
  | .fold p :: tr, folded => toolCallIdsOK jsonValid tr (folded ++ [p])
  | .call c :: tr, folded =>
    (c.Type_ = ChunkType.ToolCall →
      ∃ earlier p functionCall, folded = earlier ++ [p] ∧ p.FunctionCall = some functionCall ∧
        c = NewToolCallChunk ⟨"call-" ++ toString (completeCallsIn jsonValid earlier),
          functionCall.Name, functionCall.Arguments⟩) ∧
    toolCallIdsOK jsonValid tr folded

/-- The function call of the last payload of a list that carries one. -/
def lastFunctionCall : List StreamedChatResponsePayload → Option FunctionCallRes
  | [] => none
  | p :: rest =>
    match lastFunctionCall rest with
    | some functionCall => some functionCall
    | none => p.FunctionCall

/-- The arguments strings of the payloads of a list that carry a function
call, in order. -/
def functionCallArguments : List StreamedChatResponsePayload → List String
  | [] => []
  | p :: rest =>
    match p.FunctionCall with
    | some functionCall => functionCall.Arguments :: functionCallArguments rest
    | none => functionCallArguments rest

/-- The arguments strings of the tool-call chunks a sink received, in order. -/
def toolCallArguments : List Chunk → List String
  | [] => []
  | c :: cs =>
    if c.Type_ = ChunkType.ToolCall then c.ToolCall.Arguments :: toolCallArguments cs
    else toolCallArguments cs

end ernieclient
namespace llms

/-! ## Arithmetic helpers -/

theorem goDiv_of_nonneg (a b : Int) (ha : 0 ≤ a) (hb : 0 ≤ b) : goDiv a b = a / b :=
  Int.tdiv_eq_ediv ha hb

theorem goDiv_of_neg (a b : Int) (ha : a < 0) (hb : 0 ≤ b) : goDiv a b = -((-a) / b) := by
  unfold goDiv
  have h : a = -(-a) := by omega
  rw [h, Int.neg_tdiv, Int.tdiv_eq_ediv (by omega) hb]
  simp

theorem goDiv_three_nonpos (a : Int) (ha : a < 0) : goDiv a 3 ≤ 0 := by
  rw [goDiv_of_neg a 3 ha (by decide)]
  omega

theorem wrapInt_small (x : Int) (h0 : 0 ≤ x) (h1 : x < 9223372036854775808) : wrapInt x = x := by
  unfold wrapInt
  omega

theorem wrapInt_double_neg (m : Int) (h0 : 4611686018427387904 ≤ m) (h1 : m < 9223372036854775808) :
    wrapInt (m * 2) < 0 := by
  unfold wrapInt
  omega

theorem effort_ne : ReasoningLow ≠ ReasoningMedium ∧ ReasoningLow ≠ ReasoningHigh ∧
    ReasoningLow ≠ ReasoningNone ∧ ReasoningMedium ≠ ReasoningHigh ∧
    ReasoningMedium ≠ ReasoningNone ∧ ReasoningHigh ≠ ReasoningNone := by decide

/-- Bucketing of an effort-less configuration, for a positive `maxTokens`. -/
theorem GetEffort_none_pos (t m : Int) (hm : 0 < m) :
    ReasoningConfig.GetEffort (some { Effort := ReasoningNone, Tokens := t }) m =
      if 0 < t then
        if t < m / 4 then ReasoningLow else if t < m / 3 then ReasoningMedium else ReasoningHigh
      else ReasoningNone := by
  have h4 := goDiv_of_nonneg m 4 (by omega) (by decide)
  have h3 := goDiv_of_nonneg m 3 (by omega) (by decide)
  have hm' : ¬ m ≤ 0 := by omega
  simp only [ReasoningConfig.GetEffort, ne_eq, not_true_eq_false, if_false, hm', h4, h3, gt_iff_lt]

/-- C8.  For a configuration with effort none and a positive `maxTokens` M,
`GetEffort(M)` is low iff `0 < tokens < M/4`, medium iff `tokens > 0` and
`M/4 <= tokens < M/3`, high iff `tokens > 0` and `tokens >= M/3` (integer
division), and none when tokens is 0. -/
theorem GetEffort_bucketing (tokens M : Int) (hM : 0 < M) :
    (ReasoningConfig.GetEffort (some { Effort := ReasoningNone, Tokens := tokens }) M = ReasoningLow
        ↔ 0 < tokens ∧ tokens < M / 4) ∧
    (ReasoningConfig.GetEffort (some { Effort := ReasoningNone, Tokens := tokens }) M = ReasoningMedium
        ↔ 0 < tokens ∧ M / 4 ≤ tokens ∧ tokens < M / 3) ∧
    (ReasoningConfig.GetEffort (some { Effort := ReasoningNone, Tokens := tokens }) M = ReasoningHigh
        ↔ 0 < tokens ∧ M / 3 ≤ tokens) ∧
    (tokens = 0 →
      ReasoningConfig.GetEffort (some { Effort := ReasoningNone, Tokens := tokens }) M = ReasoningNone) := by
  obtain ⟨hlm, hlh, hln, hmh, hmn, hhn⟩ := effort_ne
  rw [GetEffort_none_pos tokens M hM]
  have h43 : M / 4 ≤ M / 3 := by omega
  split_ifs with h1 h2 h3 <;>
    simp only [hlm, hlh, hln, hmh, hmn, hhn, hlm.symm, hlh.symm, hln.symm, hmh.symm, hmn.symm,
      hhn.symm, false_iff, true_iff, implies_true, and_true, true_and] <;>
    omega

theorem GetEffort_bucketing_witness :
    (0 : Int) < 8192 ∧
    ReasoningConfig.GetEffort (some { Effort := ReasoningNone, Tokens := 2048 }) 8192 = ReasoningMedium :=
  ⟨by decide, (GetEffort_bucketing 2048 8192 (by decide)).2.1.mpr (by decide)⟩

/-- C9.  When the effort of a configuration is set (not none), `GetEffort`
returns it unchanged, whatever the token count and `maxTokens`. -/
theorem GetEffort_effort_priority (r : ReasoningConfig) (maxTokens : Int)
    (h : r.Effort ≠ ReasoningNone) :
    ReasoningConfig.GetEffort (some r) maxTokens = r.Effort := by
  simp [ReasoningConfig.GetEffort, h]

theorem GetEffort_effort_priority_witness :
    ReasoningLow ≠ ReasoningNone ∧
    ReasoningConfig.GetEffort (some { Effort := ReasoningLow, Tokens := 60000 }) 8192 = ReasoningLow :=
  ⟨by decide, GetEffort_effort_priority { Effort := ReasoningLow, Tokens := 60000 } 8192 (by decide)⟩


theorem effectiveMaxTokens_pos (M : Int) : 0 < effectiveMaxTokens M := by
  unfold effectiveMaxTokens; split_ifs <;> omega

theorem effectiveMaxTokens_idem (M : Int) :
    effectiveMaxTokens (effectiveMaxTokens M) = effectiveMaxTokens M := by
  unfold effectiveMaxTokens; split_ifs <;> omega

theorem GetEffort_effective (r : Option ReasoningConfig) (M : Int) :
    ReasoningConfig.GetEffort r M = ReasoningConfig.GetEffort r (effectiveMaxTokens M) := by
  cases r with
  | none => rfl
  | some r =>
    have h := effectiveMaxTokens_idem M
    unfold effectiveMaxTokens at h
    simp only [ReasoningConfig.GetEffort, effectiveMaxTokens, h]

theorem GetTokens_effective (r : Option ReasoningConfig) (M : Int) :
    ReasoningConfig.GetTokens r M = ReasoningConfig.GetTokens r (effectiveMaxTokens M) := by
  cases r with
  | none => rfl
  | some r =>
    have h := effectiveMaxTokens_idem M
    unfold effectiveMaxTokens at h
    simp only [ReasoningConfig.GetTokens, effectiveMaxTokens, h]

/-- The two-thirds bound computed by `GetTokens`: exact below `2^62`, and not
positive once `maxTokens*2` has wrapped around. -/
theorem twoThirds_bound (m : Int) (h0 : 0 < m) (h1 : m < 9223372036854775808) :
    (m < 4611686018427387904 → goDiv (wrapInt (m * 2)) 3 = m * 2 / 3) ∧
    (4611686018427387904 ≤ m → goDiv (wrapInt (m * 2)) 3 ≤ 0) := by
  constructor
  · intro h
    rw [wrapInt_small (m * 2) (by omega) (by omega)]
    exact goDiv_of_nonneg _ _ (by omega) (by decide)
  · intro h
    exact goDiv_three_nonpos _ (wrapInt_double_neg m h h1)

/-- Budget of an effort-only configuration, for a positive `maxTokens`. -/
theorem GetTokens_effort_pos (m : Int) (h0 : 0 < m) :
    ReasoningConfig.GetTokens (some { Effort := ReasoningLow, Tokens := 0 }) m
      = min (min (max (m / 4) 1024) (goDiv (wrapInt (m * 2)) 3)) 64000 ∧
    ReasoningConfig.GetTokens (some { Effort := ReasoningMedium, Tokens := 0 }) m
      = min (min (max (m / 3) 2048) (goDiv (wrapInt (m * 2)) 3)) 64000 ∧
    ReasoningConfig.GetTokens (some { Effort := ReasoningHigh, Tokens := 0 }) m
      = min (min (max (m / 2) 4096) (goDiv (wrapInt (m * 2)) 3)) 64000 := by
  obtain ⟨hlm, hlh, hln, hmh, hmn, hhn⟩ := effort_ne
  have h4 := goDiv_of_nonneg m 4 (by omega) (by decide)
  have h3 := goDiv_of_nonneg m 3 (by omega) (by decide)
  have h2 := goDiv_of_nonneg m 2 (by omega) (by decide)
  have hm : ¬ m ≤ 0 := by omega
  refine ⟨?_, ?_, ?_⟩ <;>
    simp [ReasoningConfig.GetTokens, hm, h4, h3, h2, MaxReasoningTokens, hlm.symm, hlh.symm,
      hmh.symm]


/-- C1 (as stated, refuted).  At `maxTokens = 8192` the budget of effort low
is 2048, which `GetEffort` reads back as medium, and the budget of effort
medium is 2730, which it reads back as high. -/
theorem effortRoundTrip_low_counterexample :
    effortRoundTrip ReasoningLow 8192 = ReasoningMedium ∧
    effortRoundTrip ReasoningLow 8192 ≠ ReasoningLow ∧
    effortRoundTrip ReasoningMedium 8192 = ReasoningHigh ∧
    effortRoundTrip ReasoningMedium 8192 ≠ ReasoningMedium := by decide

/-- C1 (amended).  For every `maxTokens` M of the `int` range, with M' the
effective value (M, or 8192 when M <= 0), the round trip effort → tokens →
effort returns the effort it started from exactly in these cases: high iff
`2 <= M' <= 192002`, medium iff `192003 <= M' <= 256003`, low iff
`256004 <= M' < 2^62`. -/
theorem effortRoundTrip_characterisation (M : Int) (hM : isInt M) :
    (effortRoundTrip ReasoningHigh M = ReasoningHigh
      ↔ 2 ≤ effectiveMaxTokens M ∧ effectiveMaxTokens M ≤ 192002) ∧
    (effortRoundTrip ReasoningMedium M = ReasoningMedium
      ↔ 192003 ≤ effectiveMaxTokens M ∧ effectiveMaxTokens M ≤ 256003) ∧
    (effortRoundTrip ReasoningLow M = ReasoningLow
      ↔ 256004 ≤ effectiveMaxTokens M ∧ effectiveMaxTokens M < 4611686018427387904) := by
  obtain ⟨hlm, hlh, hln, hmh, hmn, hhn⟩ := effort_ne
  have h0 := effectiveMaxTokens_pos M
  have h1 : effectiveMaxTokens M < 9223372036854775808 := by
    have := hM.2
    unfold effectiveMaxTokens; split_ifs <;> omega
  unfold effortRoundTrip
  rw [GetTokens_effective (some { Effort := ReasoningHigh, Tokens := 0 }) M,
    GetTokens_effective (some { Effort := ReasoningMedium, Tokens := 0 }) M,
    GetTokens_effective (some { Effort := ReasoningLow, Tokens := 0 }) M,
    GetEffort_effective _ M, GetEffort_effective _ M, GetEffort_effective _ M]
  generalize effectiveMaxTokens M = m at h0 h1 ⊢
  obtain ⟨hl, hmd, hh⟩ := GetTokens_effort_pos m h0
  obtain ⟨hc1, hc2⟩ := twoThirds_bound m h0 h1
  rw [hl, hmd, hh, GetEffort_none_pos _ m h0, GetEffort_none_pos _ m h0, GetEffort_none_pos _ m h0]
  generalize goDiv (wrapInt (m * 2)) 3 = c at hc1 hc2 ⊢
  refine ⟨?_, ?_, ?_⟩ <;>
    split_ifs <;>
    simp only [hlm, hlh, hln, hmh, hmn, hhn, hlm.symm, hlh.symm, hln.symm, hmh.symm, hmn.symm,
      hhn.symm, false_iff, true_iff] <;>
    omega

theorem effortRoundTrip_characterisation_witness :
    isInt 8192 ∧ effortRoundTrip ReasoningHigh 8192 = ReasoningHigh :=
  ⟨by decide, (effortRoundTrip_characterisation 8192 (by decide)).1.mpr (by decide)⟩

/-- C7 (as stated, refuted).  At `maxTokens = 2^62`, a value of the `int`
range, `maxTokens*2` wraps around to `-2^63` and `GetTokens` of
`{effort: high, tokens: 0}` is negative, whereas the reference value
`min(base, M*2/3, 64000)` is 64000. -/
theorem GetTokens_reference_counterexample :
    isInt 4611686018427387904 ∧
    ReasoningConfig.GetTokens (some { Effort := ReasoningHigh, Tokens := 0 }) 4611686018427387904
      = -3074457345618258602 ∧
    GetTokensRef { Effort := ReasoningHigh, Tokens := 0 } 4611686018427387904 = 64000 ∧
    ReasoningConfig.GetTokens (some { Effort := ReasoningHigh, Tokens := 0 }) 4611686018427387904
      ≠ GetTokensRef { Effort := ReasoningHigh, Tokens := 0 } 4611686018427387904 := by decide

/-- C7 (amended).  For every non-nil configuration that has `tokens > 0`, or
has `tokens <= 0` and effort low, medium or high, and every `maxTokens` M
below `2^62` (so that `M*2` stays in the `int` range; M is replaced by 8192
when `M <= 0`), `GetTokens(M)` equals the reference value
`min(base, M*2/3, 64000)` with integer division. -/
theorem GetTokens_eq_reference (r : ReasoningConfig) (M : Int)
    (hM : M < 4611686018427387904)
    (hr : r.Tokens > 0 ∨ (r.Tokens ≤ 0 ∧
      (r.Effort = ReasoningLow ∨ r.Effort = ReasoningMedium ∨ r.Effort = ReasoningHigh))) :
    ReasoningConfig.GetTokens (some r) M = GetTokensRef r M := by
  obtain ⟨hlm, hlh, hln, hmh, hmn, hhn⟩ := effort_ne
  have h0 := effectiveMaxTokens_pos M
  have h1 : effectiveMaxTokens M < 4611686018427387904 := by
    unfold effectiveMaxTokens; split_ifs <;> omega
  have hc := (twoThirds_bound (effectiveMaxTokens M) h0 (by omega)).1 h1
  have h4 := goDiv_of_nonneg (effectiveMaxTokens M) 4 (by omega) (by decide)
  have h3 := goDiv_of_nonneg (effectiveMaxTokens M) 3 (by omega) (by decide)
  have h2 := goDiv_of_nonneg (effectiveMaxTokens M) 2 (by omega) (by decide)
  unfold effectiveMaxTokens at hc h4 h3 h2
  obtain ⟨e, t⟩ := r
  simp only [ReasoningConfig.GetTokens, GetTokensRef, hc, h4, h3, h2, MaxReasoningTokens]
  rcases hr with ht | ⟨ht, he | he | he⟩
  · simp only at ht
    simp only [ht, if_true]
  · simp only at ht he
    have ht' : ¬ t > 0 := by omega
    subst he
    simp only [ht', if_false, if_true, ReasoningLow]
  · simp only at ht he
    have ht' : ¬ t > 0 := by omega
    subst he
    have e1 : ¬ ReasoningMedium = "low" := hlm.symm
    simp only [ht', if_false, if_true, hlm.symm, e1]
    simp only [ReasoningMedium, if_true]
  · simp only at ht he
    have ht' : ¬ t > 0 := by omega
    subst he
    have e1 : ¬ ReasoningHigh = "low" := hlh.symm
    have e2 : ¬ ReasoningHigh = "medium" := hmh.symm
    simp only [ht', if_false, if_true, hlh.symm, hmh.symm, e1, e2]

theorem GetTokens_eq_reference_witness :
    (8192 : Int) < 4611686018427387904 ∧
    ReasoningConfig.GetTokens (some { Effort := ReasoningHigh, Tokens := 0 }) 8192
      = GetTokensRef { Effort := ReasoningHigh, Tokens := 0 } 8192 ∧
    GetTokensRef { Effort := ReasoningHigh, Tokens := 0 } 8192 = 4096 :=
  ⟨by decide,
   GetTokens_eq_reference { Effort := ReasoningHigh, Tokens := 0 } 8192 (by decide)
     (Or.inr ⟨by decide, Or.inr (Or.inr rfl)⟩),
   by decide⟩

/-- C10 (as stated, refuted).  The configuration `{effort: "extreme", tokens: 100}`
has an effort that is none of the four constants, and `GetTokens(8192)` is 100,
not the sentinel. -/
theorem GetTokens_invalid_effort_counterexample :
    ("extreme" : ReasoningEffort) ≠ ReasoningNone ∧ ("extreme" : ReasoningEffort) ≠ ReasoningLow ∧
    ("extreme" : ReasoningEffort) ≠ ReasoningMedium ∧ ("extreme" : ReasoningEffort) ≠ ReasoningHigh ∧
    ReasoningConfig.GetTokens (some { Effort := "extreme", Tokens := 100 }) 8192 = 100 ∧
    ReasoningConfig.GetTokens (some { Effort := "extreme", Tokens := 100 }) 8192 ≠ -1 := by decide

/-- C10 (amended).  For every configuration with `tokens <= 0` whose effort is
not one of none, low, medium, high, and every `maxTokens`, `GetTokens` returns
the sentinel -1. -/
theorem GetTokens_invalid_effort (r : ReasoningConfig) (maxTokens : Int)
    (ht : r.Tokens ≤ 0)
    (hn : r.Effort ≠ ReasoningNone) (hl : r.Effort ≠ ReasoningLow)
    (hm : r.Effort ≠ ReasoningMedium) (hh : r.Effort ≠ ReasoningHigh) :
    ReasoningConfig.GetTokens (some r) maxTokens = -1 := by
  have ht' : ¬ r.Tokens > 0 := by omega
  simp [ReasoningConfig.GetTokens, ht', hn, hl, hm, hh]

theorem GetTokens_invalid_effort_witness :
    ReasoningConfig.GetTokens (some { Effort := "extreme", Tokens := 0 }) 8192 = -1 :=
  GetTokens_invalid_effort { Effort := "extreme", Tokens := 0 } 8192
    (by decide) (by decide) (by decide) (by decide) (by decide)

end llms

namespace ernieclient

open streaming

/-! ## Traces -/

theorem callsOf_append (a b : List Event) : callsOf (a ++ b) = callsOf a ++ callsOf b := by
  induction a with
  | nil => rfl
  | cons ev a ih =>
    cases ev with
    | fold p => simpa [callsOf] using ih
    | call c => simp [callsOf, ih]

theorem sinkText_append (a b : List Chunk) : sinkText (a ++ b) = sinkText a ++ sinkText b := by
  induction a with
  | nil => simp [sinkText]
  | cons c a ih => simp [sinkText, ih, String.append_assoc]

theorem sinkAccepted_append (f : List Chunk → Chunk → Option GoError) (a b : List Event)
    (history : List Chunk) :
    sinkAccepted f (a ++ b) history ↔
      sinkAccepted f a history ∧ sinkAccepted f b (history ++ callsOf a) := by
  induction a generalizing history with
  | nil => simp [sinkAccepted, callsOf]
  | cons ev a ih =>
    cases ev with
    | fold p => simpa [sinkAccepted, callsOf] using ih history
    | call c =>
      have h := ih (history ++ [c])
      simp only [List.append_assoc, List.singleton_append] at h
      show (f history c = none ∧ c.Type_ ≠ ChunkType.Done ∧
          sinkAccepted f (a ++ b) (history ++ [c])) ↔
        (f history c = none ∧ c.Type_ ≠ ChunkType.Done ∧ sinkAccepted f a (history ++ [c])) ∧
          sinkAccepted f b (history ++ c :: callsOf a)
      rw [h]
      tauto

/-- An invocation inside an accepted trace was answered nil. -/
theorem sinkAccepted_at (f : List Chunk → Chunk → Option GoError) (before after : List Event)
    (c : Chunk) (h : sinkAccepted f (before ++ Event.call c :: after) []) :
    f (callsOf before) c = none ∧ c.Type_ ≠ ChunkType.Done := by
  have h2 := ((sinkAccepted_append f before (Event.call c :: after) []).1 h).2
  simp only [sinkAccepted, List.nil_append] at h2
  exact ⟨h2.1, h2.2.1⟩

theorem sinkAccepted_snoc_call (f : List Chunk → Chunk → Option GoError) (tr : List Event)
    (c : Chunk) (h : sinkAccepted f tr []) (hc : f (callsOf tr) c = none)
    (hd : c.Type_ ≠ ChunkType.Done) : sinkAccepted f (tr ++ [Event.call c]) [] := by
  rw [sinkAccepted_append]
  exact ⟨h, by simpa [sinkAccepted] using ⟨hc, hd⟩⟩

theorem sinkAccepted_snoc_fold (f : List Chunk → Chunk → Option GoError) (tr : List Event)
    (p : StreamedChatResponsePayload) (h : sinkAccepted f tr []) :
    sinkAccepted f (tr ++ [Event.fold p]) [] := by
  rw [sinkAccepted_append]
  exact ⟨h, by simp [sinkAccepted]⟩

/-! ## The loop -/

/-- One dispatch to a sink that has accepted everything so far: the chunk is
accepted as well, or the sink returns an error on it. -/
theorem invoke_cases (f : List Chunk → Chunk → Option GoError) (tr : List Event) (c : Chunk)
    (h : sinkAccepted f tr []) (hd : c.Type_ ≠ ChunkType.Done) :
    (invoke (some f) tr c = (tr ++ [Event.call c], none) ∧
      sinkAccepted f (tr ++ [Event.call c]) []) ∨
    (∃ e, invoke (some f) tr c = (tr ++ [Event.call c], some e) ∧ f (callsOf tr) c = some e) := by
  cases hc : f (callsOf tr) c with
  | none =>
    left
    exact ⟨by simp [invoke, hc], sinkAccepted_snoc_call f tr c h hc hd⟩
  | some e =>
    right
    exact ⟨e, by simp [invoke, hc], rfl⟩

theorem textStep_outcome (f : List Chunk → Chunk → Option GoError) (s : LoopState)
    (chunk : String) (h : sinkAccepted f s.trace []) :
    LoopOutcome f (textStep (some f) s chunk) := by
  have hd : (NewTextChunk chunk).Type_ ≠ ChunkType.Done := by simp [NewTextChunk]
  unfold textStep CallWithText
  rcases invoke_cases f s.trace (NewTextChunk chunk) h hd with ⟨h1, hacc⟩ | ⟨e, h1, he⟩
  · rw [h1]
    exact Or.inl ⟨rfl, hacc⟩
  · rw [h1]
    exact Or.inr ⟨s.trace, NewTextChunk chunk, e, rfl, h, he, hd, rfl⟩

theorem loopBody_outcome (jsonValid : String → Bool) (f : List Chunk → Chunk → Option GoError)
    (s : LoopState) (p : StreamedChatResponsePayload) (h : sinkAccepted f s.trace []) :
    LoopOutcome f (loopBody jsonValid (some f) s p) := by
  have hf := sinkAccepted_snoc_fold f s.trace p h
  unfold loopBody
  cases hfc : p.FunctionCall with
  | none => exact textStep_outcome f _ _ hf
  | some functionCall =>
    simp only [CallWithToolCall, CallWithReasoning]
    have hd1 : (NewToolCallChunk ⟨"call-" ++ toString s.toolCallID, functionCall.Name,
        functionCall.Arguments⟩).Type_ ≠ ChunkType.Done := by simp [NewToolCallChunk]
    have hd2 : (NewReasoningChunk functionCall.Thoughts).Type_ ≠ ChunkType.Done := by
      simp [NewReasoningChunk]
    rcases invoke_cases f _ _ hf hd1 with ⟨h1, hacc1⟩ | ⟨e, h1, he⟩
    · rw [h1]
      simp only
      rcases invoke_cases f _ _ hacc1 hd2 with ⟨h2, hacc2⟩ | ⟨e, h2, he⟩
      · rw [h2]
        exact textStep_outcome f _ _ hacc2
      · rw [h2]
        exact Or.inr ⟨_, _, e, rfl, hacc1, he, hd2, rfl⟩
    · rw [h1]
      exact Or.inr ⟨_, _, e, rfl, hf, he, hd1, rfl⟩

theorem rangeLoop_outcome (jsonValid : String → Bool) (f : List Chunk → Chunk → Option GoError)
    (payloads : List StreamedChatResponsePayload) (s : LoopState)
    (h : sinkAccepted f s.trace []) :
    LoopOutcome f (rangeLoop jsonValid (some f) payloads s) := by
  induction payloads generalizing s with
  | nil => exact Or.inl ⟨rfl, h⟩
  | cons p rest ih =>
    have hb := loopBody_outcome jsonValid f s p h
    unfold rangeLoop
    rcases hr : loopBody jsonValid (some f) s p with ⟨s1, err⟩
    rw [hr] at hb
    cases err with
    | some e => exact hb
    | none =>
      simp only
      split
      · exact hb
      · rcases hb with ⟨_, hacc⟩ | ⟨tr, c, e, _, _, _, _, herr⟩
        · exact ih s1 hacc
        · simp at herr

/-- The two ways a call can end: the loop ran to its end, every invocation was
accepted, and the terminal chunk follows; or the sink returned an error on one
chunk, the loop returned at once with that error wrapped and no response, and
the terminal chunk follows. -/
theorem parse_cases (jsonValid : String → Bool) (f : List Chunk → Chunk → Option GoError)
    (payloads : List StreamedChatResponsePayload) :
    (∃ tr resp, (parseStreamingChatResponse jsonValid (some f) payloads).trace
          = tr ++ [Event.call NewDoneChunk] ∧
        sinkAccepted f tr [] ∧
        (parseStreamingChatResponse jsonValid (some f) payloads).err = none ∧
        (parseStreamingChatResponse jsonValid (some f) payloads).response = some resp) ∨
    (∃ tr c e, (parseStreamingChatResponse jsonValid (some f) payloads).trace
          = tr ++ [Event.call c, Event.call NewDoneChunk] ∧
        sinkAccepted f tr [] ∧ f (callsOf tr) c = some e ∧ c.Type_ ≠ ChunkType.Done ∧
        (parseStreamingChatResponse jsonValid (some f) payloads).err = some (sinkError e) ∧
        (parseStreamingChatResponse jsonValid (some f) payloads).response = none) := by
  have h := rangeLoop_outcome jsonValid f payloads
    { response := ChatResponse.zero, toolCallID := 0, trace := [] } trivial
  unfold parseStreamingChatResponse
  rcases hr : rangeLoop jsonValid (some f) payloads
    { response := ChatResponse.zero, toolCallID := 0, trace := [] } with ⟨s, err⟩
  rw [hr] at h
  rcases h with ⟨herr, hacc⟩ | ⟨tr, c, e, htr, hacc, he, hd, herr⟩
  · left
    simp only at herr hacc
    subst herr
    exact ⟨s.trace, s.response, rfl, hacc, rfl, rfl⟩
  · right
    simp only at herr htr
    subst herr
    refine ⟨tr, c, e, ?_, hacc, he, hd, rfl, rfl⟩
    simp [CallWithDone, invoke, htr]

/-- Where an invocation that the sink answered with an error can stand in a
trace whose first part was accepted: not inside that part. -/
theorem failing_call_after (f : List Chunk → Chunk → Option GoError)
    (tr rest before after : List Event) (c : Chunk) (e : GoError)
    (hacc : sinkAccepted f tr []) (heq : tr ++ rest = before ++ Event.call c :: after)
    (he : f (callsOf before) c = some e) :
    ∃ mid, before = tr ++ mid ∧ rest = mid ++ Event.call c :: after := by
  rcases List.append_eq_append_iff.1 heq with ⟨a, h1, h2⟩ | ⟨b, h1, h2⟩
  · exact ⟨a, h1, h2⟩
  · cases b with
    | nil =>
      refine ⟨[], by simpa using h1.symm, by simpa using h2.symm⟩
    | cons x b =>
      simp only [List.cons_append, List.cons.injEq] at h2
      obtain ⟨hx, _⟩ := h2
      subst hx
      subst h1
      have := (sinkAccepted_at f before b c hacc).1
      rw [this] at he
      cases he

theorem sinkAccepted_no_done (f : List Chunk → Chunk → Option GoError) (tr : List Event)
    (history : List Chunk) (h : sinkAccepted f tr history) :
    ∀ c ∈ callsOf tr, c.Type_ ≠ ChunkType.Done := by
  induction tr generalizing history with
  | nil => simp [callsOf]
  | cons ev tr ih =>
    cases ev with
    | fold p => exact ih history h
    | call c =>
      intro c1 hc1
      simp only [callsOf, List.mem_cons] at hc1
      rcases hc1 with rfl | hc1
      · exact h.2.1
      · exact ih _ h.2.2 c1 hc1

/-- Everything that follows from the sink having returned an error on one of
its invocations: either the chunk was not the terminal one, the terminal chunk
is the only thing after it, and the call returns the wrapped error and no
response; or the chunk was the terminal one and nothing follows. -/
theorem failing_call_cases (jsonValid : String → Bool) (f : List Chunk → Chunk → Option GoError)
    (payloads : List StreamedChatResponsePayload) (before after : List Event) (c : Chunk)
    (e : GoError)
    (htr : (parseStreamingChatResponse jsonValid (some f) payloads).trace
      = before ++ Event.call c :: after)
    (he : f (callsOf before) c = some e) :
    (c.Type_ ≠ ChunkType.Done ∧ after = [Event.call NewDoneChunk] ∧ sinkAccepted f before [] ∧
      (parseStreamingChatResponse jsonValid (some f) payloads).err = some (sinkError e) ∧
      (parseStreamingChatResponse jsonValid (some f) payloads).response = none) ∨
    (c = NewDoneChunk ∧ after = [] ∧
      ((sinkAccepted f before [] ∧
        (parseStreamingChatResponse jsonValid (some f) payloads).err = none) ∨
       (∃ tr c0 e0, before = tr ++ [Event.call c0] ∧ f (callsOf tr) c0 = some e0))) := by
  rcases parse_cases jsonValid f payloads with
    ⟨tr, resp, h1, hacc, herr, hresp⟩ | ⟨tr, c0, e0, h1, hacc, he0, hd0, herr, hresp⟩
  · rw [h1] at htr
    obtain ⟨mid, hb, hm⟩ := failing_call_after f tr _ before after c e hacc htr he
    cases mid with
    | nil =>
      simp only [List.nil_append, List.cons.injEq, Event.call.injEq] at hm
      obtain ⟨hc, ha⟩ := hm
      right
      refine ⟨hc.symm, ha.symm, Or.inl ⟨?_, herr⟩⟩
      simpa [hb] using hacc
    | cons x mid =>
      simp only [List.cons_append, List.cons.injEq] at hm
      have := hm.2
      simp at this
  · rw [h1] at htr
    obtain ⟨mid, hb, hm⟩ := failing_call_after f tr _ before after c e hacc htr he
    cases mid with
    | nil =>
      simp only [List.nil_append, List.cons.injEq, Event.call.injEq] at hm
      obtain ⟨hc, ha⟩ := hm
      subst hc
      have hbt : before = tr := by simpa using hb
      subst hbt
      rw [he0] at he
      cases he
      left
      exact ⟨hd0, ha.symm, hacc, herr, hresp⟩
    | cons x mid =>
      simp only [List.cons_append, List.cons.injEq] at hm
      obtain ⟨hx, hm⟩ := hm
      cases mid with
      | nil =>
        simp only [List.nil_append, List.cons.injEq, Event.call.injEq] at hm
        obtain ⟨hc, ha⟩ := hm
        right
        exact ⟨hc.symm, ha.symm, Or.inr ⟨tr, c0, e0, by rw [hb, hx], he0⟩⟩
      | cons y mid =>
        simp at hm

end ernieclient

namespace ernieclient

open streaming

/-! ## Text equivalence -/

theorem concatStrings_append (a b : List String) :
    concatStrings (a ++ b) = concatStrings a ++ concatStrings b := by
  induction a with
  | nil => simp [concatStrings]
  | cons s a ih => simp [concatStrings, ih, String.append_assoc]

/-- One iteration under a sink that never returns an error: the loop does not
return, the payload's result is appended to the response and reaches the sink
as one text chunk. -/
theorem loopBody_accept (jsonValid : String → Bool) (f : List Chunk → Chunk → Option GoError)
    (hf : ∀ history c, f history c = none) (s : LoopState) (p : StreamedChatResponsePayload) :
    (loopBody jsonValid (some f) s p).2 = none ∧
    (loopBody jsonValid (some f) s p).1.response.Result = s.response.Result ++ p.Result ∧
    sinkText (callsOf (loopBody jsonValid (some f) s p).1.trace)
      = sinkText (callsOf s.trace) ++ p.Result := by
  unfold loopBody
  cases hfc : p.FunctionCall with
  | none =>
    simp [textStep, CallWithText, invoke, hf, callsOf_append, sinkText_append, callsOf, sinkText,
      NewTextChunk]
  | some functionCall =>
    simp [textStep, CallWithText, CallWithToolCall, CallWithReasoning, invoke, hf, callsOf_append,
      sinkText_append, callsOf, sinkText, NewTextChunk, NewToolCallChunk, NewReasoningChunk]

theorem rangeLoop_accept (jsonValid : String → Bool) (f : List Chunk → Chunk → Option GoError)
    (hf : ∀ history c, f history c = none) (payloads : List StreamedChatResponsePayload)
    (s : LoopState) :
    (rangeLoop jsonValid (some f) payloads s).2 = none ∧
    (rangeLoop jsonValid (some f) payloads s).1.response.Result
      = s.response.Result ++ concatStrings ((throughEnd payloads).map (fun p => p.Result)) ∧
    sinkText (callsOf (rangeLoop jsonValid (some f) payloads s).1.trace)
      = sinkText (callsOf s.trace)
        ++ concatStrings ((throughEnd payloads).map (fun p => p.Result)) := by
  induction payloads generalizing s with
  | nil => simp [rangeLoop, throughEnd, concatStrings]
  | cons p rest ih =>
    obtain ⟨h1, h2, h3⟩ := loopBody_accept jsonValid f hf s p
    unfold rangeLoop
    rcases hr : loopBody jsonValid (some f) s p with ⟨s1, err⟩
    rw [hr] at h1 h2 h3
    simp only at h1 h2 h3
    subst h1
    simp only
    by_cases hend : p.IsEnd = true
    · simp [hend, throughEnd, concatStrings, h2, h3]
    · obtain ⟨i1, i2, i3⟩ := ih s1
      simp [hend, throughEnd, concatStrings, i1, i2, i3, h2, h3, String.append_assoc]

/-- C2.  For every payload sequence and every sink that never returns an
error, the call returns a response and a nil error, the `Result` of the
response equals the in-order concatenation of the contents of the text chunks
delivered to the sink, and this is the in-order concatenation of the `result`
fields of the payloads up to and including the first one with `is_end` set. -/
theorem streaming_text_equivalence (jsonValid : String → Bool)
    (f : List Chunk → Chunk → Option GoError) (payloads : List StreamedChatResponsePayload)
    (hf : ∀ history c, f history c = none) :
    ∃ resp, (parseStreamingChatResponse jsonValid (some f) payloads).response = some resp ∧
      (parseStreamingChatResponse jsonValid (some f) payloads).err = none ∧
      resp.Result = sinkText (parseStreamingChatResponse jsonValid (some f) payloads).calls ∧
      sinkText (parseStreamingChatResponse jsonValid (some f) payloads).calls
        = concatStrings ((throughEnd payloads).map (fun p => p.Result)) := by
  obtain ⟨h1, h2, h3⟩ := rangeLoop_accept jsonValid f hf payloads
    { response := ChatResponse.zero, toolCallID := 0, trace := [] }
  unfold Outcome.calls parseStreamingChatResponse
  rcases hr : rangeLoop jsonValid (some f) payloads
    { response := ChatResponse.zero, toolCallID := 0, trace := [] } with ⟨s, err⟩
  rw [hr] at h1 h2 h3
  simp only at h1 h2 h3
  subst h1
  have hz : ChatResponse.zero.Result = "" := rfl
  have hd : sinkText (callsOf (CallWithDone (some f) s.trace).1) = sinkText (callsOf s.trace) := by
    simp [CallWithDone, invoke, callsOf_append, sinkText_append, callsOf, sinkText, NewDoneChunk]
  refine ⟨s.response, rfl, rfl, ?_, ?_⟩
  · simp only [hd, h2, h3, hz, callsOf, sinkText]
  · simp only [hd, h3, callsOf, sinkText, String.empty_append]

theorem streaming_text_equivalence_witness :
    (∀ history c, acceptAll history c = none) ∧
    ∃ resp, (parseStreamingChatResponse (fun _ => true) (some acceptAll)
        [textPayload "ab" false, textPayload "cd" true, textPayload "ef" false]).response
          = some resp ∧
      resp.Result = "abcd" ∧
      sinkText (parseStreamingChatResponse (fun _ => true) (some acceptAll)
        [textPayload "ab" false, textPayload "cd" true, textPayload "ef" false]).calls = "abcd" := by
  obtain ⟨resp, h1, _, h3, h4⟩ := streaming_text_equivalence (fun _ => true) acceptAll
    [textPayload "ab" false, textPayload "cd" true, textPayload "ef" false] (fun _ _ => rfl)
  refine ⟨fun _ _ => rfl, resp, h1, ?_, ?_⟩
  · rw [h3, h4]; decide
  · rw [h4]; decide

end ernieclient

namespace ernieclient

open streaming

/-! ## Cancellation by the sink -/

/-- C3 (as stated, refuted).  On the stream of one text payload, a sink that
returns `errors.New("stop")` on its first chunk makes the call return an error
that wraps that value and is not that value; a sink that returns it on its
second chunk, the terminal one, makes the call return a nil error. -/
theorem sink_error_verbatim_counterexample :
    ((parseStreamingChatResponse (fun _ => true) (some (failAt 0 stopError))
        [textPayload "ab" false]).trace
      = [Event.fold (textPayload "ab" false)] ++ Event.call (NewTextChunk "ab")
          :: [Event.call NewDoneChunk] ∧
     failAt 0 stopError (callsOf [Event.fold (textPayload "ab" false)]) (NewTextChunk "ab")
      = some stopError ∧
     (parseStreamingChatResponse (fun _ => true) (some (failAt 0 stopError))
        [textPayload "ab" false]).err
      = some (GoError.wrapError "streaming func returned an error: stop" stopError) ∧
     (parseStreamingChatResponse (fun _ => true) (some (failAt 0 stopError))
        [textPayload "ab" false]).err ≠ some stopError) ∧
    ((parseStreamingChatResponse (fun _ => true) (some (failAt 1 stopError))
        [textPayload "ab" false]).trace
      = [Event.fold (textPayload "ab" false), Event.call (NewTextChunk "ab")]
          ++ Event.call NewDoneChunk :: [] ∧
     failAt 1 stopError
        (callsOf [Event.fold (textPayload "ab" false), Event.call (NewTextChunk "ab")])
        NewDoneChunk = some stopError ∧
     (parseStreamingChatResponse (fun _ => true) (some (failAt 1 stopError))
        [textPayload "ab" false]).err = none ∧
     (parseStreamingChatResponse (fun _ => true) (some (failAt 1 stopError))
        [textPayload "ab" false]).err ≠ some stopError) := by decide

/-- C3 (amended).  If the sink returns the error `e` on a chunk it is invoked
with and that chunk is a text, reasoning or tool-call chunk, the call returns
the error `fmt.Errorf("streaming func returned an error: %w", e)`, which wraps
`e` (`errors.Unwrap` gives `e` back).  If the chunk is the terminal one and no
earlier invocation returned an error, the error is dropped and the call
returns a nil error. -/
theorem sink_error_returned_wrapped (jsonValid : String → Bool)
    (f : List Chunk → Chunk → Option GoError) (payloads : List StreamedChatResponsePayload)
    (before after : List Event) (c : Chunk) (e : GoError)
    (htr : (parseStreamingChatResponse jsonValid (some f) payloads).trace
      = before ++ Event.call c :: after)
    (he : f (callsOf before) c = some e) :
    (c.Type_ ≠ ChunkType.Done →
      (parseStreamingChatResponse jsonValid (some f) payloads).err
        = some (fmtErrorf "streaming func returned an error: " e) ∧
      GoError.Unwrap (fmtErrorf "streaming func returned an error: " e) = some e) ∧
    (c.Type_ = ChunkType.Done →
      (∀ pre c1 post, before = pre ++ Event.call c1 :: post → f (callsOf pre) c1 = none) →
      (parseStreamingChatResponse jsonValid (some f) payloads).err = none) := by
  rcases failing_call_cases jsonValid f payloads before after c e htr he with
    ⟨hd, _, _, herr, _⟩ | ⟨hc, _, ⟨_, herr⟩ | ⟨tr, c0, e0, hb, he0⟩⟩
  · exact ⟨fun _ => ⟨herr, rfl⟩, fun h => absurd h hd⟩
  · refine ⟨fun h => absurd (by rw [hc]; rfl) h, fun _ _ => herr⟩
  · refine ⟨fun h => absurd (by rw [hc]; rfl) h, fun _ hfirst => ?_⟩
    have := hfirst tr c0 [] hb
    rw [he0] at this
    cases this

theorem sink_error_returned_wrapped_witness :
    (parseStreamingChatResponse (fun _ => true) (some (failAt 1 stopError)) threeTexts).err
      = some (GoError.wrapError "streaming func returned an error: stop" stopError) :=
  ((sink_error_returned_wrapped (fun _ => true) (failAt 1 stopError) threeTexts
    [Event.fold (textPayload "ab" false), Event.call (NewTextChunk "ab"),
      Event.fold (textPayload "cd" false)]
    [Event.call NewDoneChunk] (NewTextChunk "cd") stopError (by decide) (by decide)).1
      (by decide)).1

/-- C4 (as stated, refuted).  On the stream of one text payload, a sink that
returns an error on the text chunk is invoked with the terminal chunk right
after. -/
theorem no_done_after_cancellation_counterexample :
    failAt 0 stopError [] (NewTextChunk "ab") = some stopError ∧
    (parseStreamingChatResponse (fun _ => true) (some (failAt 0 stopError))
        [textPayload "ab" false]).calls = [NewTextChunk "ab", NewDoneChunk] ∧
    NewDoneChunk ∈ (parseStreamingChatResponse (fun _ => true) (some (failAt 0 stopError))
        [textPayload "ab" false]).calls := by decide

/-- C4 (amended).  If the sink returns a non-nil error on a text, reasoning or
tool-call chunk, the sink is invoked with the terminal chunk exactly once
during that call: no chunk before the failing one is terminal, and the
invocation with the terminal chunk (made by the deferred
`streaming.CallWithDone`) is the one and only thing that follows the failing
invocation. -/
theorem done_dispatched_after_sink_error (jsonValid : String → Bool)
    (f : List Chunk → Chunk → Option GoError) (payloads : List StreamedChatResponsePayload)
    (before after : List Event) (c : Chunk) (e : GoError)
    (htr : (parseStreamingChatResponse jsonValid (some f) payloads).trace
      = before ++ Event.call c :: after)
    (he : f (callsOf before) c = some e) (hd : c.Type_ ≠ ChunkType.Done) :
    after = [Event.call NewDoneChunk] ∧
    (∀ c1 ∈ callsOf before, c1.Type_ ≠ ChunkType.Done) ∧
    (parseStreamingChatResponse jsonValid (some f) payloads).calls
      = callsOf before ++ [c, NewDoneChunk] := by
  rcases failing_call_cases jsonValid f payloads before after c e htr he with
    ⟨_, ha, hacc, _, _⟩ | ⟨hc, _, _⟩
  · refine ⟨ha, sinkAccepted_no_done f before [] hacc, ?_⟩
    rw [Outcome.calls, htr, ha, callsOf_append]
    rfl
  · exact absurd (by rw [hc]; rfl) hd

theorem done_dispatched_after_sink_error_witness :
    (parseStreamingChatResponse (fun _ => true) (some (failAt 1 stopError)) threeTexts).calls
      = [NewTextChunk "ab", NewTextChunk "cd", NewDoneChunk] :=
  (done_dispatched_after_sink_error (fun _ => true) (failAt 1 stopError) threeTexts
    [Event.fold (textPayload "ab" false), Event.call (NewTextChunk "ab"),
      Event.fold (textPayload "cd" false)]
    [Event.call NewDoneChunk] (NewTextChunk "cd") stopError (by decide) (by decide)
    (by decide)).2.2

/-- C5.  Once the sink has returned a non-nil error on one of its invocations,
nothing but the terminal chunk is dispatched afterwards: every later event of
the call is an invocation with the terminal chunk, so the sink sees no later
text, reasoning or tool-call chunk and no later payload is folded into the
response. -/
theorem cancellation_stops_dispatch (jsonValid : String → Bool)
    (f : List Chunk → Chunk → Option GoError) (payloads : List StreamedChatResponsePayload)
    (before after : List Event) (c : Chunk) (e : GoError)
    (htr : (parseStreamingChatResponse jsonValid (some f) payloads).trace
      = before ++ Event.call c :: after)
    (he : f (callsOf before) c = some e) :
    (∀ ev ∈ after, ev = Event.call NewDoneChunk) ∧
    (∀ p, Event.fold p ∉ after) ∧
    (∀ c1, Event.call c1 ∈ after → c1.Type_ = ChunkType.Done) := by
  have hall : ∀ ev ∈ after, ev = Event.call NewDoneChunk := by
    rcases failing_call_cases jsonValid f payloads before after c e htr he with
      ⟨_, ha, _, _, _⟩ | ⟨_, ha, _⟩
    · intro ev hev
      rw [ha] at hev
      simpa using hev
    · intro ev hev
      rw [ha] at hev
      cases hev
  refine ⟨hall, ?_, ?_⟩
  · intro p hp
    cases hall _ hp
  · intro c1 hc1
    have := hall _ hc1
    simp only [Event.call.injEq] at this
    rw [this]
    rfl

theorem cancellation_stops_dispatch_witness :
    (parseStreamingChatResponse (fun _ => true) (some (failAt 0 stopError)) threeTexts).trace
      = [Event.fold (textPayload "ab" false)] ++ Event.call (NewTextChunk "ab")
          :: [Event.call NewDoneChunk] ∧
    ∀ p, Event.fold p ∉ [Event.call NewDoneChunk] :=
  ⟨by decide,
   (cancellation_stops_dispatch (fun _ => true) (failAt 0 stopError) threeTexts
    [Event.fold (textPayload "ab" false)] [Event.call NewDoneChunk] (NewTextChunk "ab")
    stopError (by decide) (by decide)).2.1⟩

/-- C6.  Whenever the sink returns a non-nil error on a text, reasoning or
tool-call chunk, the call returns no response together with a non-nil error,
whatever had been accumulated before. -/
theorem partial_result_discarded (jsonValid : String → Bool)
    (f : List Chunk → Chunk → Option GoError) (payloads : List StreamedChatResponsePayload)
    (before after : List Event) (c : Chunk) (e : GoError)
    (htr : (parseStreamingChatResponse jsonValid (some f) payloads).trace
      = before ++ Event.call c :: after)
    (he : f (callsOf before) c = some e) (hd : c.Type_ ≠ ChunkType.Done) :
    (parseStreamingChatResponse jsonValid (some f) payloads).response = none ∧
    (parseStreamingChatResponse jsonValid (some f) payloads).err ≠ none := by
  rcases failing_call_cases jsonValid f payloads before after c e htr he with
    ⟨_, _, _, herr, hresp⟩ | ⟨hc, _, _⟩
  · exact ⟨hresp, by rw [herr]; simp⟩
  · exact absurd (by rw [hc]; rfl) hd

theorem partial_result_discarded_witness :
    (parseStreamingChatResponse (fun _ => true) (some (failAt 2 stopError)) threeTexts).response
      = none ∧
    (parseStreamingChatResponse (fun _ => true) (some (failAt 2 stopError)) threeTexts).err
      ≠ none :=
  partial_result_discarded (fun _ => true) (failAt 2 stopError) threeTexts
    [Event.fold (textPayload "ab" false), Event.call (NewTextChunk "ab"),
      Event.fold (textPayload "cd" false), Event.call (NewTextChunk "cd"),
      Event.fold (textPayload "ef" true)]
    [Event.call NewDoneChunk] (NewTextChunk "ef") stopError (by decide) (by decide) (by decide)

end ernieclient

namespace llms

/-! ## Reasoning configuration: further properties -/

/-- C13.  For every non-nil configuration, `IsEnabled()` is false if and only
if the effort is none and the token count is 0. -/
theorem IsEnabled_false_iff (r : ReasoningConfig) :
    ReasoningConfig.IsEnabled (some r) = false ↔ r.Effort = ReasoningNone ∧ r.Tokens = 0 := by
  unfold ReasoningConfig.IsEnabled
  by_cases h : r.Effort = ReasoningNone ∧ r.Tokens = 0
  · simp [h]
  · simp only [h, if_false, iff_false]
    simp

/-- C14.  The option `WithReasoning(ReasoningNone, 0)` installs the
configuration `{effort: none, tokens: 0}` in `CallOptions.Reasoning`, and that
configuration has `IsEnabled()` false and `GetTokens(M) = 0` for every
`maxTokens` M. -/
theorem disabled_reasoning (Float64 Any : Type) (o : CallOptions Float64 Any) :
    (WithReasoning ReasoningNone 0 o).Reasoning
      = some { Effort := ReasoningNone, Tokens := 0 } ∧
    ReasoningConfig.IsEnabled (WithReasoning ReasoningNone 0 o).Reasoning = false ∧
    ∀ M : Int, ReasoningConfig.GetTokens (WithReasoning ReasoningNone 0 o).Reasoning M = 0 := by
  refine ⟨rfl, rfl, ?_⟩
  intro M
  obtain ⟨hlm, hlh, hln, hmh, hmn, hhn⟩ := effort_ne
  simp [WithReasoning, ReasoningConfig.GetTokens, hln.symm, hmn.symm, hhn.symm]

/-- C15.  For every configuration, the nil one included, and every `maxTokens`
M below `2^62`, so that `M*2` does not overflow (M is replaced by 8192 when
`M <= 0`), `GetTokens(M)` is at most `M*2/3` and at most 64000. -/
theorem GetTokens_ceiling (r : Option ReasoningConfig) (M : Int)
    (hM : M < 4611686018427387904) :
    ReasoningConfig.GetTokens r M ≤ effectiveMaxTokens M * 2 / 3 ∧
    ReasoningConfig.GetTokens r M ≤ MaxReasoningTokens := by
  have h0 := effectiveMaxTokens_pos M
  have h1 : effectiveMaxTokens M < 4611686018427387904 := by
    unfold effectiveMaxTokens; split_ifs <;> omega
  have hc := (twoThirds_bound (effectiveMaxTokens M) h0 (by omega)).1 h1
  rw [GetTokens_effective r M]
  generalize effectiveMaxTokens M = m at h0 h1 hc ⊢
  have hm : ¬ m ≤ 0 := by omega
  cases r with
  | none =>
    simp only [ReasoningConfig.GetTokens, MaxReasoningTokens]
    omega
  | some r =>
    simp only [ReasoningConfig.GetTokens, hm, if_false, hc, MaxReasoningTokens]
    split_ifs <;> omega

theorem GetTokens_ceiling_witness :
    (8192 : Int) < 4611686018427387904 ∧
    ReasoningConfig.GetTokens (some { Effort := ReasoningNone, Tokens := 60000 }) 8192
      ≤ effectiveMaxTokens 8192 * 2 / 3 ∧
    ReasoningConfig.GetTokens (some { Effort := ReasoningNone, Tokens := 60000 }) 8192
      ≤ MaxReasoningTokens :=
  ⟨by decide, GetTokens_ceiling (some { Effort := ReasoningNone, Tokens := 60000 }) 8192 (by decide)⟩

/-- C16.  For every configuration and every `maxTokens` M with `M <= 0`, zero
included, `GetTokens(M) = GetTokens(8192)` and `GetEffort(M) = GetEffort(8192)`. -/
theorem maxTokens_default (r : Option ReasoningConfig) (M : Int) (hM : M ≤ 0) :
    ReasoningConfig.GetTokens r M = ReasoningConfig.GetTokens r 8192 ∧
    ReasoningConfig.GetEffort r M = ReasoningConfig.GetEffort r 8192 := by
  have h : effectiveMaxTokens M = 8192 := by simp [effectiveMaxTokens, hM]
  have h8 : effectiveMaxTokens 8192 = 8192 := by decide
  constructor
  · rw [GetTokens_effective r M, h]
  · rw [GetEffort_effective r M, h]

theorem maxTokens_default_witness :
    (0 : Int) ≤ 0 ∧
    ReasoningConfig.GetTokens (some { Effort := ReasoningHigh, Tokens := 0 }) 0 = 4096 ∧
    ReasoningConfig.GetEffort (some { Effort := ReasoningNone, Tokens := 3000 }) 0
      = ReasoningHigh := by
  obtain ⟨h1, _⟩ := maxTokens_default (some { Effort := ReasoningHigh, Tokens := 0 }) 0 (by decide)
  obtain ⟨_, h2⟩ := maxTokens_default (some { Effort := ReasoningNone, Tokens := 3000 }) 0
    (by decide)
  refine ⟨by decide, ?_, ?_⟩
  · rw [h1]; decide
  · rw [h2]; decide

/-- C17 (the code at the failing input).  At `maxTokens = 100` the budgets of
the efforts low, medium and high are all 66, the two-thirds ceiling, below
each of the minimum values of the doc comment of `GetTokens`; at
`maxTokens = 4096` the budget of effort high is 2730, below its minimum 4096. -/
theorem minimum_budget_counterexample :
    ReasoningConfig.GetTokens (some { Effort := ReasoningLow, Tokens := 0 }) 100 = 66 ∧
    ReasoningConfig.GetTokens (some { Effort := ReasoningMedium, Tokens := 0 }) 100 = 66 ∧
    ReasoningConfig.GetTokens (some { Effort := ReasoningHigh, Tokens := 0 }) 100 = 66 ∧
    ReasoningConfig.GetTokens (some { Effort := ReasoningHigh, Tokens := 0 }) 4096 = 2730 ∧
    ¬ (1024 ≤ ReasoningConfig.GetTokens (some { Effort := ReasoningLow, Tokens := 0 }) 100) ∧
    ¬ (2048 ≤ ReasoningConfig.GetTokens (some { Effort := ReasoningMedium, Tokens := 0 }) 100) ∧
    ¬ (4096 ≤ ReasoningConfig.GetTokens (some { Effort := ReasoningHigh, Tokens := 0 }) 100) ∧
    ¬ (4096 ≤ ReasoningConfig.GetTokens (some { Effort := ReasoningHigh, Tokens := 0 }) 4096) := by
  decide

/-- Where the minimum values of the doc comment of `GetTokens` are met: for
every `maxTokens` M of the `int` range, with M' the effective value (M, or
8192 when `M <= 0`), a configuration with tokens 0 gets at least 1024 for
effort low exactly when `1536 <= M' < 2^62`, at least 2048 for effort medium
exactly when `3072 <= M' < 2^62`, and at least 4096 for effort high exactly
when `6144 <= M' < 2^62`. -/
theorem minimum_budget_characterisation (M : Int) (hM : isInt M) :
    (1024 ≤ ReasoningConfig.GetTokens (some { Effort := ReasoningLow, Tokens := 0 }) M
      ↔ 1536 ≤ effectiveMaxTokens M ∧ effectiveMaxTokens M < 4611686018427387904) ∧
    (2048 ≤ ReasoningConfig.GetTokens (some { Effort := ReasoningMedium, Tokens := 0 }) M
      ↔ 3072 ≤ effectiveMaxTokens M ∧ effectiveMaxTokens M < 4611686018427387904) ∧
    (4096 ≤ ReasoningConfig.GetTokens (some { Effort := ReasoningHigh, Tokens := 0 }) M
      ↔ 6144 ≤ effectiveMaxTokens M ∧ effectiveMaxTokens M < 4611686018427387904) := by
  have h0 := effectiveMaxTokens_pos M
  have h1 : effectiveMaxTokens M < 9223372036854775808 := by
    have := hM.2
    unfold effectiveMaxTokens; split_ifs <;> omega
  rw [GetTokens_effective (some { Effort := ReasoningHigh, Tokens := 0 }) M,
    GetTokens_effective (some { Effort := ReasoningMedium, Tokens := 0 }) M,
    GetTokens_effective (some { Effort := ReasoningLow, Tokens := 0 }) M]
  generalize effectiveMaxTokens M = m at h0 h1 ⊢
  obtain ⟨hl, hmd, hh⟩ := GetTokens_effort_pos m h0
  obtain ⟨hc1, hc2⟩ := twoThirds_bound m h0 h1
  rw [hl, hmd, hh]
  generalize goDiv (wrapInt (m * 2)) 3 = c at hc1 hc2 ⊢
  refine ⟨?_, ?_, ?_⟩ <;> omega

theorem minimum_budget_characterisation_witness :
    isInt 8192 ∧
    1024 ≤ ReasoningConfig.GetTokens (some { Effort := ReasoningLow, Tokens := 0 }) 8192 :=
  ⟨by decide, (minimum_budget_characterisation 8192 (by decide)).1.mpr (by decide)⟩

end llms

namespace ernieclient

open streaming

/-! ## Tool calls, the terminal chunk, and the reader -/

/-- C11 (as stated, refuted).  When the arguments of one tool call arrive as
the fragments `{"a":` and `1}` in two successive payloads, the sink receives
two tool-call chunks with the id `call-0` whose arguments concatenate to
`{"a":1}`, while the function call of the final response carries only the
last fragment `1}`, which is not that concatenation. -/
theorem function_call_arguments_overwritten :
    (parseStreamingChatResponse (fun _ => false) (some acceptAll)
        [functionCallPayload "f" "\x7b\"a\":", functionCallPayload "f" "1\x7d"]).response
      = some { ChatResponse.zero with
          FunctionCall := some { Name := "f", Thoughts := "", Arguments := "1\x7d" } } ∧
    (parseStreamingChatResponse (fun _ => false) (some acceptAll)
        [functionCallPayload "f" "\x7b\"a\":", functionCallPayload "f" "1\x7d"]).calls
      = [NewToolCallChunk ⟨"call-0", "f", "\x7b\"a\":"⟩, NewReasoningChunk "", NewTextChunk "",
         NewToolCallChunk ⟨"call-0", "f", "1\x7d"⟩, NewReasoningChunk "", NewTextChunk "",
         NewDoneChunk] ∧
    sinkArguments "call-0" (parseStreamingChatResponse (fun _ => false) (some acceptAll)
        [functionCallPayload "f" "\x7b\"a\":", functionCallPayload "f" "1\x7d"]).calls
      = "\x7b\"a\":1\x7d" ∧
    ("1\x7d" : String) ≠ "\x7b\"a\":1\x7d" := by decide

/-- C12.  For every payload sequence and every sink that never returns an
error, the sink is invoked with the terminal chunk exactly once during the
call, and that invocation is the last one: it comes after every text,
reasoning and tool-call invocation. -/
theorem done_exactly_once_and_last (jsonValid : String → Bool)
    (f : List Chunk → Chunk → Option GoError) (payloads : List StreamedChatResponsePayload)
    (hf : ∀ history c, f history c = none) :
    ∃ earlier, (parseStreamingChatResponse jsonValid (some f) payloads).calls
        = earlier ++ [NewDoneChunk] ∧
      (∀ c ∈ earlier, c.Type_ ≠ ChunkType.Done) ∧
      ((parseStreamingChatResponse jsonValid (some f) payloads).calls.filter
        (fun c => c.Type_ = ChunkType.Done)).length = 1 := by
  rcases parse_cases jsonValid f payloads with
    ⟨tr, resp, h1, hacc, _, _⟩ | ⟨tr, c, e, _, _, he, _, _, _⟩
  · have hno := sinkAccepted_no_done f tr [] hacc
    refine ⟨callsOf tr, ?_, hno, ?_⟩
    · rw [Outcome.calls, h1, callsOf_append]
      rfl
    · rw [Outcome.calls, h1, callsOf_append, List.filter_append]
      have hnil : (callsOf tr).filter (fun c => c.Type_ = ChunkType.Done) = [] := by
        rw [List.filter_eq_nil_iff]
        intro c hc
        simpa using hno c hc
      rw [hnil]
      rfl
  · rw [hf] at he
    cases he

theorem done_exactly_once_and_last_witness :
    (∀ history c, acceptAll history c = none) ∧
    ∃ earlier, (parseStreamingChatResponse (fun _ => true) (some acceptAll) threeTexts).calls
        = earlier ++ [NewDoneChunk] ∧
      (∀ c ∈ earlier, c.Type_ ≠ ChunkType.Done) ∧
      ((parseStreamingChatResponse (fun _ => true) (some acceptAll) threeTexts).calls.filter
        (fun c => c.Type_ = ChunkType.Done)).length = 1 :=
  ⟨fun _ _ => rfl,
   done_exactly_once_and_last (fun _ => true) acceptAll threeTexts (fun _ _ => rfl)⟩

/-- C18 (the code at the failing input).  When the first line of the body is
the text `garbage`, which does not start with `data:`, the reader goroutine
reaches `log.Fatalf`: the process is terminated and the call does not return,
whatever the decoder, the sink and the rest of the body are.  The same
happens for a line `data: garbage` whose payload does not decode. -/
theorem malformed_line_terminates_process
    (decode : String → Except String StreamedChatResponsePayload) (jsonValid : String → Bool)
    (cb : Callback) (rest : List String) (scanErr : Option GoError) :
    parseStreamingChatResponseBody decode jsonValid cb ⟨"garbage" :: rest, scanErr⟩
      = ProcessResult.exited "unexpected line: garbage" ∧
    parseStreamingChatResponseBody decodeExample jsonValid cb ⟨"data: garbage" :: rest, scanErr⟩
      = ProcessResult.exited "failed to decode stream payload: invalid character" := by
  constructor
  · unfold parseStreamingChatResponseBody streamLines
    have h1 : ("garbage" : String) ≠ "" := by decide
    have h2 : strings.HasPrefix "garbage" "data:" = false := by decide
    simp [h1, h2]
  · unfold parseStreamingChatResponseBody streamLines
    have h1 : ("data: garbage" : String) ≠ "" := by decide
    have h2 : strings.HasPrefix "data: garbage" "data:" = true := by decide
    have h3 : decodeExample (strings.TrimPrefix "data: garbage" "data: ")
        = Except.error "invalid character" := by rfl
    simp [h1, h2, h3]

/-- C19 (the code at the failing input).  When the body delivers one payload
with the result `ab`, not terminal, and reading then fails with the error
`unexpected EOF`, the error is only printed: the call returns the response
accumulated so far together with a nil error. -/
theorem read_failure_returns_response :
    parseStreamingChatResponseBody decodeExample (fun _ => false) (some acceptAll)
        ⟨["data: \x7b\"result\":\"ab\"\x7d"], some (GoError.errorString "unexpected EOF")⟩
      = ProcessResult.returned
          { response := some { ChatResponse.zero with Result := "ab" },
            err := none,
            trace := [Event.fold (textPayload "ab" false), Event.call (NewTextChunk "ab"),
              Event.call NewDoneChunk] }
          ["issue scanning response: unexpected EOF"] := by decide

/-- A malformed line behind a payload on which the consumer stops: the sink
fails on the text chunk of the first payload, the call returns early, and the
reader goroutine, scanning ahead, reaches `log.Fatalf` on the line `garbage`. -/
theorem malformed_line_after_stop :
    parseStreamingChatResponseBody decodeExample (fun _ => false) (some (failAt 0 stopError))
        ⟨["data: \x7b\"result\":\"ab\"\x7d", "garbage"], none⟩
      = ProcessResult.exited "unexpected line: garbage" := by decide

/-! ## Nothing after the terminal payload -/

theorem rangeLoop_throughEnd (jsonValid : String → Bool) (cb : Callback)
    (payloads : List StreamedChatResponsePayload) (s : LoopState) :
    rangeLoop jsonValid cb payloads s = rangeLoop jsonValid cb (throughEnd payloads) s := by
  induction payloads generalizing s with
  | nil => rfl
  | cons p rest ih =>
    by_cases hend : p.IsEnd = true
    · have ht : throughEnd (p :: rest) = [p] := by simp [throughEnd, hend]
      rw [ht]
      simp only [rangeLoop, hend, if_true]
    · have ht : throughEnd (p :: rest) = p :: throughEnd rest := by simp [throughEnd, hend]
      rw [ht]
      simp only [rangeLoop, hend, if_false]
      rcases loopBody jsonValid cb s p with ⟨s1, err⟩
      cases err with
      | some e => rfl
      | none => exact ih s1

/-- C20.  Two payload sequences that agree up to and including their first
payload with `is_end` set give the same call: the same response, the same
error, and the same sequence of folds and sink invocations, so no payload
after the terminal one is folded or forwarded. -/
theorem nothing_after_terminal_payload (jsonValid : String → Bool) (cb : Callback)
    (payloads1 payloads2 : List StreamedChatResponsePayload)
    (h : throughEnd payloads1 = throughEnd payloads2) :
    parseStreamingChatResponse jsonValid cb payloads1
      = parseStreamingChatResponse jsonValid cb payloads2 := by
  unfold parseStreamingChatResponse
  rw [rangeLoop_throughEnd jsonValid cb payloads1, rangeLoop_throughEnd jsonValid cb payloads2, h]

theorem nothing_after_terminal_payload_witness :
    throughEnd [textPayload "ab" false, textPayload "cd" true, textPayload "ef" false]
      = throughEnd [textPayload "ab" false, textPayload "cd" true] ∧
    parseStreamingChatResponse (fun _ => true) (some acceptAll)
        [textPayload "ab" false, textPayload "cd" true, textPayload "ef" false]
      = parseStreamingChatResponse (fun _ => true) (some acceptAll)
        [textPayload "ab" false, textPayload "cd" true] :=
  ⟨by decide,
   nothing_after_terminal_payload (fun _ => true) (some acceptAll)
    [textPayload "ab" false, textPayload "cd" true, textPayload "ef" false]
    [textPayload "ab" false, textPayload "cd" true] (by decide)⟩

end ernieclient

namespace llms

/-! ## Frame of the option constructors -/

/-- C30.  Applied to any `CallOptions` o, every single-field option sets the
field it is named after to its argument (`WithJSONMode` sets `JSONMode` to
true, `WithReasoning` stores the configuration made of its two arguments) and
leaves every other field of o unchanged, whereas `WithOptions(x)` replaces o
by x entirely. -/
theorem option_setters_frame (Float64 Any : Type) (o : CallOptions Float64 Any) :
    (∀ v : String, (WithModel v o).Model = v ∧ sameExcept Field.Model (WithModel v o) o) ∧
    (∀ v : Int, (WithMaxTokens v o).MaxTokens = v ∧ sameExcept Field.MaxTokens (WithMaxTokens v o) o) ∧
    (∀ v : Int, (WithCandidateCount v o).CandidateCount = v ∧ sameExcept Field.CandidateCount (WithCandidateCount v o) o) ∧
    (∀ v : Float64, (WithTemperature v o).Temperature = v ∧ sameExcept Field.Temperature (WithTemperature v o) o) ∧
    (∀ v : List String, (WithStopWords v o).StopWords = v ∧ sameExcept Field.StopWords (WithStopWords v o) o) ∧
    (∀ v : streaming.Callback, (WithStreamingFunc v o).StreamingFunc = v ∧ sameExcept Field.StreamingFunc (WithStreamingFunc v o) o) ∧
    (∀ v : Int, (WithTopK v o).TopK = v ∧ sameExcept Field.TopK (WithTopK v o) o) ∧
    (∀ v : Float64, (WithTopP v o).TopP = v ∧ sameExcept Field.TopP (WithTopP v o) o) ∧
    (∀ v : Int, (WithSeed v o).Seed = v ∧ sameExcept Field.Seed (WithSeed v o) o) ∧
    (∀ v : Int, (WithMinLength v o).MinLength = v ∧ sameExcept Field.MinLength (WithMinLength v o) o) ∧
    (∀ v : Int, (WithMaxLength v o).MaxLength = v ∧ sameExcept Field.MaxLength (WithMaxLength v o) o) ∧
    (∀ v : Int, (WithN v o).N = v ∧ sameExcept Field.N (WithN v o) o) ∧
    (∀ v : Float64, (WithRepetitionPenalty v o).RepetitionPenalty = v ∧ sameExcept Field.RepetitionPenalty (WithRepetitionPenalty v o) o) ∧
    (∀ v : Float64, (WithFrequencyPenalty v o).FrequencyPenalty = v ∧ sameExcept Field.FrequencyPenalty (WithFrequencyPenalty v o) o) ∧
    (∀ v : Float64, (WithPresencePenalty v o).PresencePenalty = v ∧ sameExcept Field.PresencePenalty (WithPresencePenalty v o) o) ∧
    (∀ v : FunctionCallBehavior, (WithFunctionCallBehavior v o).FunctionCallBehavior = v ∧ sameExcept Field.FunctionCallBehavior (WithFunctionCallBehavior v o) o) ∧
    (∀ v : List (FunctionDefinition Any), (WithFunctions v o).Functions = v ∧ sameExcept Field.Functions (WithFunctions v o) o) ∧
    (∀ v : Any, (WithToolChoice v o).ToolChoice = v ∧ sameExcept Field.ToolChoice (WithToolChoice v o) o) ∧
    (∀ v : List (Tool Any), (WithTools v o).Tools = v ∧ sameExcept Field.Tools (WithTools v o) o) ∧
    (∀ v : String → Option Any, (WithMetadata v o).Metadata = v ∧ sameExcept Field.Metadata (WithMetadata v o) o) ∧
    (∀ v : String, (WithResponseMIMEType v o).ResponseMIMEType = v ∧ sameExcept Field.ResponseMIMEType (WithResponseMIMEType v o) o) ∧
    (∀ v : String, (WithVoice v o).Voice = v ∧ sameExcept Field.Voice (WithVoice v o) o) ∧
    (∀ v : Float64, (WithSpeed v o).Speed = v ∧ sameExcept Field.Speed (WithSpeed v o) o) ∧
    (∀ v : String, (WithResponseFormat v o).ResponseFormat = v ∧ sameExcept Field.ResponseFormat (WithResponseFormat v o) o) ∧
    (∀ (effort : ReasoningEffort) (tokens : Int),
      (WithReasoning effort tokens o).Reasoning = some { Effort := effort, Tokens := tokens } ∧
      sameExcept Field.Reasoning (WithReasoning effort tokens o) o) ∧
    ((WithJSONMode o).JSONMode = true ∧ sameExcept Field.JSONMode (WithJSONMode o) o) ∧
    (∀ x : CallOptions Float64 Any, WithOptions x o = x) := by
  refine ⟨?_, ?_, ?_, ?_, ?_, ?_, ?_, ?_, ?_, ?_, ?_, ?_, ?_, ?_, ?_, ?_, ?_, ?_, ?_, ?_, ?_, ?_, ?_, ?_, ?_, ?_, ?_⟩
  · intro v; exact ⟨rfl, by simp [sameExcept, WithModel]⟩
  · intro v; exact ⟨rfl, by simp [sameExcept, WithMaxTokens]⟩
  · intro v; exact ⟨rfl, by simp [sameExcept, WithCandidateCount]⟩
  · intro v; exact ⟨rfl, by simp [sameExcept, WithTemperature]⟩
  · intro v; exact ⟨rfl, by simp [sameExcept, WithStopWords]⟩
  · intro v; exact ⟨rfl, by simp [sameExcept, WithStreamingFunc]⟩
  · intro v; exact ⟨rfl, by simp [sameExcept, WithTopK]⟩
  · intro v; exact ⟨rfl, by simp [sameExcept, WithTopP]⟩
  · intro v; exact ⟨rfl, by simp [sameExcept, WithSeed]⟩
  · intro v; exact ⟨rfl, by simp [sameExcept, WithMinLength]⟩
  · intro v; exact ⟨rfl, by simp [sameExcept, WithMaxLength]⟩
  · intro v; exact ⟨rfl, by simp [sameExcept, WithN]⟩
  · intro v; exact ⟨rfl, by simp [sameExcept, WithRepetitionPenalty]⟩
  · intro v; exact ⟨rfl, by simp [sameExcept, WithFrequencyPenalty]⟩
  · intro v; exact ⟨rfl, by simp [sameExcept, WithPresencePenalty]⟩
  · intro v; exact ⟨rfl, by simp [sameExcept, WithFunctionCallBehavior]⟩
  · intro v; exact ⟨rfl, by simp [sameExcept, WithFunctions]⟩
  · intro v; exact ⟨rfl, by simp [sameExcept, WithToolChoice]⟩
  · intro v; exact ⟨rfl, by simp [sameExcept, WithTools]⟩
  · intro v; exact ⟨rfl, by simp [sameExcept, WithMetadata]⟩
  · intro v; exact ⟨rfl, by simp [sameExcept, WithResponseMIMEType]⟩
  · intro v; exact ⟨rfl, by simp [sameExcept, WithVoice]⟩
  · intro v; exact ⟨rfl, by simp [sameExcept, WithSpeed]⟩
  · intro v; exact ⟨rfl, by simp [sameExcept, WithResponseFormat]⟩
  · intro effort tokens; exact ⟨rfl, by simp [sameExcept, WithReasoning]⟩
  · exact ⟨rfl, by simp [sameExcept, WithJSONMode]⟩
  · intro x; rfl

end llms

namespace llms

/-! ## Reasoning configuration: enabled configurations and ranges -/

/-- C25.  For every non-nil configuration with `tokens >= 0` and every
`maxTokens`, `IsEnabled()` is true if and only if `GetEffort(maxTokens)` is
not none. -/
theorem IsEnabled_iff_GetEffort (r : ReasoningConfig) (maxTokens : Int) (ht : 0 ≤ r.Tokens) :
    ReasoningConfig.IsEnabled (some r) = true ↔
      ReasoningConfig.GetEffort (some r) maxTokens ≠ ReasoningNone := by
  obtain ⟨hlm, hlh, hln, hmh, hmn, hhn⟩ := effort_ne
  obtain ⟨e, t⟩ := r
  simp only at ht
  by_cases he : e = ReasoningNone
  · subst he
    rw [GetEffort_effective, GetEffort_none_pos t _ (effectiveMaxTokens_pos maxTokens)]
    by_cases ht0 : t = 0
    · subst ht0
      simp [ReasoningConfig.IsEnabled]
    · have htp : 0 < t := by omega
      simp only [ReasoningConfig.IsEnabled, ht0, and_false, if_false, htp, if_true, true_iff]
      split_ifs
      · exact hln
      · exact hmn
      · exact hhn
  · simp [ReasoningConfig.IsEnabled, ReasoningConfig.GetEffort, he]

theorem IsEnabled_iff_GetEffort_witness :
    (0 : Int) ≤ 100 ∧
    ReasoningConfig.IsEnabled (some { Effort := ReasoningNone, Tokens := 100 }) = true ∧
    ReasoningConfig.GetEffort (some { Effort := ReasoningNone, Tokens := 100 }) 8192
      ≠ ReasoningNone :=
  ⟨by decide, by decide,
   (IsEnabled_iff_GetEffort { Effort := ReasoningNone, Tokens := 100 } 8192 (by decide)).1
     (by decide)⟩

/-- C26.  For every non-nil configuration with `tokens >= 0` and effort none,
low, medium or high, and every `maxTokens` M below `2^62`, so that `M*2` does
not overflow, `GetTokens(M) = 0` if and only if the configuration is disabled
(effort none and tokens 0) or `M = 1`; for every other M an enabled
configuration gets a budget of at least 1. -/
theorem GetTokens_zero_iff (r : ReasoningConfig) (M : Int) (ht : 0 ≤ r.Tokens)
    (he : r.Effort = ReasoningNone ∨ r.Effort = ReasoningLow ∨ r.Effort = ReasoningMedium ∨
      r.Effort = ReasoningHigh)
    (hM : M < 4611686018427387904) :
    (ReasoningConfig.GetTokens (some r) M = 0 ↔
      (r.Effort = ReasoningNone ∧ r.Tokens = 0) ∨ M = 1) ∧
    (¬ (r.Effort = ReasoningNone ∧ r.Tokens = 0) → M ≠ 1 →
      1 ≤ ReasoningConfig.GetTokens (some r) M) := by
  obtain ⟨hlm, hlh, hln, hmh, hmn, hhn⟩ := effort_ne
  have h0 := effectiveMaxTokens_pos M
  have h1 : effectiveMaxTokens M < 4611686018427387904 := by
    unfold effectiveMaxTokens; split_ifs <;> omega
  have hc := (twoThirds_bound (effectiveMaxTokens M) h0 (by omega)).1 h1
  have h4 := goDiv_of_nonneg (effectiveMaxTokens M) 4 (by omega) (by decide)
  have h3 := goDiv_of_nonneg (effectiveMaxTokens M) 3 (by omega) (by decide)
  have h2 := goDiv_of_nonneg (effectiveMaxTokens M) 2 (by omega) (by decide)
  rw [GetTokens_effective (some r) M]
  have hcase : (M ≤ 0 ∧ effectiveMaxTokens M = 8192) ∨ (0 < M ∧ effectiveMaxTokens M = M) := by
    unfold effectiveMaxTokens; split_ifs <;> omega
  generalize effectiveMaxTokens M = m at h0 h1 hc h4 h3 h2 hcase ⊢
  have hm : ¬ m ≤ 0 := by omega
  obtain ⟨e, t⟩ := r
  simp only at ht he ⊢
  simp only [ReasoningConfig.GetTokens, hm, if_false, hc, h4, h3, h2, MaxReasoningTokens]
  rcases he with he | he | he | he <;> subst he <;>
    simp only [hlm, hlh, hln, hmh, hmn, hhn, hlm.symm, hlh.symm, hln.symm, hmh.symm, hmn.symm,
      hhn.symm, if_true, if_false, true_and, false_and, false_or, ne_eq, not_false_eq_true,
      true_implies] <;>
    split_ifs <;> omega

theorem GetTokens_zero_iff_witness :
    ReasoningConfig.GetTokens (some { Effort := ReasoningHigh, Tokens := 0 }) 1 = 0 ∧
    1 ≤ ReasoningConfig.GetTokens (some { Effort := ReasoningHigh, Tokens := 0 }) 2 :=
  ⟨(GetTokens_zero_iff { Effort := ReasoningHigh, Tokens := 0 } 1 (by decide)
      (Or.inr (Or.inr (Or.inr rfl))) (by decide)).1.mpr (Or.inr rfl),
   (GetTokens_zero_iff { Effort := ReasoningHigh, Tokens := 0 } 2 (by decide)
      (Or.inr (Or.inr (Or.inr rfl))) (by decide)).2 (by decide) (by decide)⟩

/-- C27.  For every `maxTokens` M, with tokens 0, the budget of effort low is
at most the budget of effort medium, which is at most the budget of effort
high. -/
theorem GetTokens_monotone_in_effort (M : Int) :
    ReasoningConfig.GetTokens (some { Effort := ReasoningLow, Tokens := 0 }) M
      ≤ ReasoningConfig.GetTokens (some { Effort := ReasoningMedium, Tokens := 0 }) M ∧
    ReasoningConfig.GetTokens (some { Effort := ReasoningMedium, Tokens := 0 }) M
      ≤ ReasoningConfig.GetTokens (some { Effort := ReasoningHigh, Tokens := 0 }) M := by
  have h0 := effectiveMaxTokens_pos M
  rw [GetTokens_effective (some { Effort := ReasoningHigh, Tokens := 0 }) M,
    GetTokens_effective (some { Effort := ReasoningMedium, Tokens := 0 }) M,
    GetTokens_effective (some { Effort := ReasoningLow, Tokens := 0 }) M]
  generalize effectiveMaxTokens M = m at h0 ⊢
  obtain ⟨hl, hmd, hh⟩ := GetTokens_effort_pos m h0
  rw [hl, hmd, hh]
  generalize goDiv (wrapInt (m * 2)) 3 = c
  constructor <;> omega

/-- C28.  For every non-nil configuration and every `maxTokens` M below
`2^62`, `GetTokens(M)` is either -1 or lies between 0 and 64000, and it is -1
exactly when `tokens <= 0` and the effort is not one of none, low, medium,
high; for the nil configuration it is 0. -/
theorem GetTokens_range (r : ReasoningConfig) (M : Int) (hM : M < 4611686018427387904) :
    (ReasoningConfig.GetTokens (some r) M = -1 ∨
      (0 ≤ ReasoningConfig.GetTokens (some r) M ∧
        ReasoningConfig.GetTokens (some r) M ≤ 64000)) ∧
    (ReasoningConfig.GetTokens (some r) M = -1 ↔
      r.Tokens ≤ 0 ∧ r.Effort ≠ ReasoningNone ∧ r.Effort ≠ ReasoningLow ∧
        r.Effort ≠ ReasoningMedium ∧ r.Effort ≠ ReasoningHigh) ∧
    ReasoningConfig.GetTokens none M = 0 := by
  have h0 := effectiveMaxTokens_pos M
  have h1 : effectiveMaxTokens M < 4611686018427387904 := by
    unfold effectiveMaxTokens; split_ifs <;> omega
  have hc := (twoThirds_bound (effectiveMaxTokens M) h0 (by omega)).1 h1
  have h4 := goDiv_of_nonneg (effectiveMaxTokens M) 4 (by omega) (by decide)
  have h3 := goDiv_of_nonneg (effectiveMaxTokens M) 3 (by omega) (by decide)
  have h2 := goDiv_of_nonneg (effectiveMaxTokens M) 2 (by omega) (by decide)
  rw [GetTokens_effective (some r) M]
  generalize effectiveMaxTokens M = m at h0 h1 hc h4 h3 h2 ⊢
  have hm : ¬ m ≤ 0 := by omega
  refine ⟨?_, ?_, rfl⟩
  · simp only [ReasoningConfig.GetTokens, hm, if_false, hc, h4, h3, h2, MaxReasoningTokens]
    split_ifs <;> omega
  · obtain ⟨e, t⟩ := r
    simp only [ReasoningConfig.GetTokens, hm, if_false, hc, h4, h3, h2, MaxReasoningTokens]
    by_cases ht : t > 0
    · simp only [ht, if_true]
      constructor
      · intro h; omega
      · intro h; omega
    · have ht0 : t ≤ 0 := by omega
      simp only [ht, if_false, ht0, true_and]
      by_cases hl : e = ReasoningLow
      · simp only [hl, if_true, ne_eq, not_true_eq_false, false_and, and_false, iff_false]
        omega
      · by_cases hmd : e = ReasoningMedium
        · simp only [hl, hmd, if_true, if_false, ne_eq, not_true_eq_false, false_and,
            and_false, iff_false]
          omega
        · by_cases hh : e = ReasoningHigh
          · simp only [hl, hmd, hh, if_true, if_false, ne_eq, not_true_eq_false, false_and,
              and_false, iff_false]
            omega
          · by_cases hn : e = ReasoningNone
            · simp only [hl, hmd, hh, hn, if_true, if_false, ne_eq, not_true_eq_false,
                false_and, and_false, iff_false]
              omega
            · simp only [hl, hmd, hh, hn, if_false, ne_eq, not_false_eq_true, and_self]

theorem GetTokens_range_witness :
    (8192 : Int) < 4611686018427387904 ∧
    ReasoningConfig.GetTokens (some { Effort := "extreme", Tokens := 0 }) 8192 = -1 :=
  ⟨by decide,
   ((GetTokens_range { Effort := "extreme", Tokens := 0 } 8192 (by decide)).2.1).mpr
     (by decide)⟩

/-- C29.  Called on a nil receiver, `IsEnabled()` returns false, `GetEffort(M)`
returns none and `GetTokens(M)` returns 0 for every `maxTokens` M: each method
returns at its first test, before any field of the receiver is read. -/
theorem nil_config_disabled (M : Int) :
    ReasoningConfig.IsEnabled none = false ∧
    ReasoningConfig.GetEffort none M = ReasoningNone ∧
    ReasoningConfig.GetTokens none M = 0 :=
  ⟨rfl, rfl, rfl⟩

end llms

namespace prompts

open streaming

/-! ## Template formats -/

/-- C23.  For every template string, every value map and every format other
than go-template, jinja2 and f-string, `RenderTemplate` returns the empty
string with an error that wraps `ErrInvalidTemplateFormat`, and
`CheckValidTemplate` returns that same error, which wraps
`ErrInvalidTemplateFormat`, whatever the rendering engines are: none of them
is called. -/
theorem unsupported_format_rejected {Any : Type} (engines : Engines Any) (tmpl : String)
    (format : TemplateFormat) (values : String → Option Any) (inputVariables : List String)
    (h1 : format ≠ TemplateFormatGoTemplate) (h2 : format ≠ TemplateFormatJinja2)
    (h3 : format ≠ TemplateFormatFString) :
    RenderTemplate engines tmpl format values = ("", some (newInvalidTemplateError format)) ∧
    CheckValidTemplate engines tmpl format inputVariables
      = some (newInvalidTemplateError format) ∧
    errorsIs (newInvalidTemplateError format) ErrInvalidTemplateFormat = true ∧
    GoError.Unwrap (newInvalidTemplateError format) = some ErrInvalidTemplateFormat := by
  have hm : defaultFormatterMapping engines format = none := by
    simp [defaultFormatterMapping, h1, h2, h3]
  refine ⟨by simp [RenderTemplate, hm], by simp [CheckValidTemplate, hm], ?_, rfl⟩
  simp [newInvalidTemplateError, errorsIs, ErrInvalidTemplateFormat]

theorem unsupported_format_rejected_witness :
    RenderTemplate exampleEngines "hello" "mustache" (fun _ => none)
      = ("", some (GoError.wrapError
          "invalid template format, got: mustache, should be one of [f-string go-template jinja2]"
          ErrInvalidTemplateFormat)) ∧
    CheckValidTemplate exampleEngines "hello" "mustache" ["name"]
      = some (GoError.wrapError
          "invalid template format, got: mustache, should be one of [f-string go-template jinja2]"
          ErrInvalidTemplateFormat) :=
  ⟨(unsupported_format_rejected exampleEngines "hello" "mustache" (fun _ => none) ["name"]
      (by decide) (by decide) (by decide)).1,
   (unsupported_format_rejected exampleEngines "hello" "mustache" (fun _ => none) ["name"]
      (by decide) (by decide) (by decide)).2.1⟩

end prompts

namespace ernieclient

open streaming

/-! ## Empty stream and dispatch order -/

/-- C21.  For a stream that carries no payload at all, the call returns a nil
error and a response with empty result text and no function call, and the sink
receives only the terminal chunk; the same holds for a body without lines. -/
theorem empty_stream (jsonValid : String → Bool) (f : List Chunk → Chunk → Option GoError)
    (decode : String → Except String StreamedChatResponsePayload) :
    parseStreamingChatResponse jsonValid (some f) []
      = { response := some ChatResponse.zero, err := none,
          trace := [Event.call NewDoneChunk] } ∧
    ChatResponse.zero.Result = "" ∧ ChatResponse.zero.FunctionCall = none ∧
    (parseStreamingChatResponse jsonValid (some f) []).calls = [NewDoneChunk] ∧
    parseStreamingChatResponseBody decode jsonValid (some f) { lines := [], scanErr := none }
      = ProcessResult.returned
          { response := some ChatResponse.zero, err := none,
            trace := [Event.call NewDoneChunk] } [] :=
  ⟨rfl, rfl, rfl, rfl, rfl⟩

theorem completeCallsIn_snoc (jsonValid : String → Bool)
    (earlier : List StreamedChatResponsePayload) (p : StreamedChatResponsePayload) :
    completeCallsIn jsonValid (earlier ++ [p])
      = completeCallsIn jsonValid earlier + (if completeCall jsonValid p then 1 else 0) := by
  unfold completeCallsIn
  rw [List.filter_append, List.length_append]
  by_cases h : completeCall jsonValid p = true <;> simp [List.filter, h]

/-- One iteration under a sink that never returns an error: the sink receives
the chunks expected for the payload, and the counter of tool-call ids goes up
by one exactly for a complete call. -/
theorem loopBody_calls (jsonValid : String → Bool) (f : List Chunk → Chunk → Option GoError)
    (hf : ∀ history c, f history c = none) (s : LoopState) (p : StreamedChatResponsePayload) :
    callsOf (loopBody jsonValid (some f) s p).1.trace
      = callsOf s.trace ++ payloadChunks ("call-" ++ toString s.toolCallID) p ∧
    (loopBody jsonValid (some f) s p).1.toolCallID
      = s.toolCallID + (if completeCall jsonValid p then 1 else 0) := by
  unfold loopBody
  cases hfc : p.FunctionCall with
  | none =>
    simp [textStep, CallWithText, invoke, hf, callsOf_append, callsOf, payloadChunks, hfc,
      completeCall]
  | some functionCall =>
    by_cases hv : jsonValid functionCall.Arguments = true ∧ functionCall.Arguments ≠ ""
    · simp [textStep, CallWithText, CallWithToolCall, CallWithReasoning, invoke, hf,
        callsOf_append, callsOf, payloadChunks, hfc, completeCall, incToolCallID, hv]
    · have hv2 : ¬ (jsonValid functionCall.Arguments = true ∧ ¬ functionCall.Arguments = "") := hv
      simp only [not_and, not_not] at hv2
      by_cases hj : jsonValid functionCall.Arguments = true
      · simp [textStep, CallWithText, CallWithToolCall, CallWithReasoning, invoke, hf,
          callsOf_append, callsOf, payloadChunks, hfc, completeCall, incToolCallID, hj, hv2 hj]
      · simp [textStep, CallWithText, CallWithToolCall, CallWithReasoning, invoke, hf,
          callsOf_append, callsOf, payloadChunks, hfc, completeCall, incToolCallID, hj]

theorem rangeLoop_calls (jsonValid : String → Bool) (f : List Chunk → Chunk → Option GoError)
    (hf : ∀ history c, f history c = none) (payloads earlier : List StreamedChatResponsePayload)
    (s : LoopState) (hid : s.toolCallID = completeCallsIn jsonValid earlier) :
    callsOf (rangeLoop jsonValid (some f) payloads s).1.trace
      = callsOf s.trace ++ expectedCalls jsonValid earlier (throughEnd payloads) := by
  induction payloads generalizing s earlier with
  | nil => simp [rangeLoop, throughEnd, expectedCalls]
  | cons p rest ih =>
    obtain ⟨h1, h2⟩ := loopBody_calls jsonValid f hf s p
    have h3 := (loopBody_accept jsonValid f hf s p).1
    unfold rangeLoop
    rcases hr : loopBody jsonValid (some f) s p with ⟨s1, err⟩
    rw [hr] at h1 h2 h3
    simp only at h1 h2 h3
    subst h3
    simp only
    by_cases hend : p.IsEnd = true
    · simp [hend, throughEnd, expectedCalls, h1, hid]
    · have hid1 : s1.toolCallID = completeCallsIn jsonValid (earlier ++ [p]) := by
        rw [h2, hid, completeCallsIn_snoc]
      simp [hend, throughEnd, expectedCalls, ih (earlier ++ [p]) s1 hid1, h1, hid]

/-- C22.  For every payload sequence and every sink that never returns an
error, the invocations of the sink are, payload by payload in stream order up
to and including the first payload with `is_end`, without merging or
reordering: a tool-call chunk then a reasoning chunk (both only when the
payload has a function call), then a text chunk with that payload's result;
and one final terminal chunk follows. -/
theorem dispatch_order (jsonValid : String → Bool) (f : List Chunk → Chunk → Option GoError)
    (payloads : List StreamedChatResponsePayload) (hf : ∀ history c, f history c = none) :
    (parseStreamingChatResponse jsonValid (some f) payloads).calls
      = expectedCalls jsonValid [] (throughEnd payloads) ++ [NewDoneChunk] := by
  have h := rangeLoop_calls jsonValid f hf payloads []
    { response := ChatResponse.zero, toolCallID := 0, trace := [] } rfl
  have h2 := (rangeLoop_accept jsonValid f hf payloads
    { response := ChatResponse.zero, toolCallID := 0, trace := [] }).1
  unfold Outcome.calls parseStreamingChatResponse
  rcases hr : rangeLoop jsonValid (some f) payloads
    { response := ChatResponse.zero, toolCallID := 0, trace := [] } with ⟨s, err⟩
  rw [hr] at h h2
  simp only at h h2
  subst h2
  simp [CallWithDone, invoke, callsOf_append, callsOf, h]

theorem dispatch_order_witness :
    (∀ history c, acceptAll history c = none) ∧
    (parseStreamingChatResponse (fun _ => true) (some acceptAll)
        [functionCallPayload "f" "1", textPayload "ab" true, textPayload "cd" false]).calls
      = [NewToolCallChunk ⟨"call-0", "f", "1"⟩, NewReasoningChunk "", NewTextChunk "",
         NewTextChunk "ab", NewDoneChunk] := by
  refine ⟨fun _ _ => rfl, ?_⟩
  rw [dispatch_order (fun _ => true) acceptAll
    [functionCallPayload "f" "1", textPayload "ab" true, textPayload "cd" false]
    (fun _ _ => rfl)]
  decide

end ernieclient

namespace ernieclient

open streaming

/-! ## Tool-call ids -/

theorem foldsOf_append (a b : List Event) : foldsOf (a ++ b) = foldsOf a ++ foldsOf b := by
  induction a with
  | nil => rfl
  | cons ev a ih =>
    cases ev with
    | fold p => simp [foldsOf, ih]
    | call c => simpa [foldsOf] using ih

theorem foldsOf_calls (cs : List Chunk) : foldsOf (cs.map Event.call) = [] := by
  induction cs with
  | nil => rfl
  | cons c cs ih => simpa [foldsOf] using ih

theorem toolCallIdsOK_append (jsonValid : String → Bool) (a b : List Event)
    (folded : List StreamedChatResponsePayload) :
    toolCallIdsOK jsonValid (a ++ b) folded ↔
      toolCallIdsOK jsonValid a folded ∧ toolCallIdsOK jsonValid b (folded ++ foldsOf a) := by
  induction a generalizing folded with
  | nil => simp [toolCallIdsOK, foldsOf]
  | cons ev a ih =>
    cases ev with
    | fold p =>
      have h := ih (folded ++ [p])
      simp only [List.append_assoc, List.singleton_append] at h
      simpa [toolCallIdsOK, foldsOf] using h
    | call c =>
      have h := ih folded
      show (_ ∧ toolCallIdsOK jsonValid (a ++ b) folded) ↔
        ((_ ∧ toolCallIdsOK jsonValid a folded) ∧
          toolCallIdsOK jsonValid b (folded ++ foldsOf a))
      rw [h]
      tauto

theorem completeCallsIn_append (jsonValid : String → Bool)
    (a b : List StreamedChatResponsePayload) :
    completeCallsIn jsonValid (a ++ b) = completeCallsIn jsonValid a + completeCallsIn jsonValid b := by
  unfold completeCallsIn
  rw [List.filter_append, List.length_append]

theorem completeCallsIn_no_call (jsonValid : String → Bool)
    (earlier : List StreamedChatResponsePayload) (h : ∀ q ∈ earlier, q.FunctionCall = none) :
    completeCallsIn jsonValid earlier = 0 := by
  unfold completeCallsIn
  rw [List.length_eq_zero, List.filter_eq_nil_iff]
  intro q hq
  simp [completeCall, h q hq]

/-- Folding one more payload keeps the ids recorded so far right. -/
theorem toolCallIdsOK_snoc_fold (jsonValid : String → Bool) (tr : List Event)
    (p : StreamedChatResponsePayload) (h : toolCallIdsOK jsonValid tr []) :
    toolCallIdsOK jsonValid (tr ++ [Event.fold p]) [] := by
  rw [toolCallIdsOK_append]
  exact ⟨h, by simp [toolCallIdsOK]⟩

theorem toolCallIdsOK_snoc_call (jsonValid : String → Bool) (tr : List Event) (c : Chunk)
    (h : toolCallIdsOK jsonValid tr [])
    (hc : c.Type_ = ChunkType.ToolCall →
      ∃ earlier p functionCall, foldsOf tr = earlier ++ [p] ∧
        p.FunctionCall = some functionCall ∧
        c = NewToolCallChunk ⟨"call-" ++ toString (completeCallsIn jsonValid earlier),
          functionCall.Name, functionCall.Arguments⟩) :
    toolCallIdsOK jsonValid (tr ++ [Event.call c]) [] := by
  rw [toolCallIdsOK_append]
  refine ⟨h, ?_⟩
  simp only [toolCallIdsOK, List.nil_append, and_true]
  exact hc

theorem invoke_trace (cb : Callback) (tr : List Event) (c : Chunk) :
    (invoke cb tr c).1 = tr ∨ (invoke cb tr c).1 = tr ++ [Event.call c] := by
  cases cb <;> simp [invoke]

/-- A dispatch of a chunk keeps the invariant of the ids. -/
theorem invoke_ids (jsonValid : String → Bool) (cb : Callback) (tr : List Event) (c : Chunk)
    (h : toolCallIdsOK jsonValid tr [])
    (hc : c.Type_ = ChunkType.ToolCall →
      ∃ earlier p functionCall, foldsOf tr = earlier ++ [p] ∧
        p.FunctionCall = some functionCall ∧
        c = NewToolCallChunk ⟨"call-" ++ toString (completeCallsIn jsonValid earlier),
          functionCall.Name, functionCall.Arguments⟩) :
    toolCallIdsOK jsonValid (invoke cb tr c).1 [] ∧ foldsOf (invoke cb tr c).1 = foldsOf tr := by
  rcases invoke_trace cb tr c with h1 | h1
  · rw [h1]; exact ⟨h, rfl⟩
  · rw [h1]
    exact ⟨toolCallIdsOK_snoc_call jsonValid tr c h hc, by simp [foldsOf_append, foldsOf]⟩

theorem textStep_ids (jsonValid : String → Bool) (cb : Callback) (s : LoopState)
    (chunk : String) (h : toolCallIdsOK jsonValid s.trace []) :
    toolCallIdsOK jsonValid (textStep cb s chunk).1.trace [] ∧
    foldsOf (textStep cb s chunk).1.trace = foldsOf s.trace ∧
    (textStep cb s chunk).1.toolCallID = s.toolCallID := by
  have hi := invoke_ids jsonValid cb s.trace (NewTextChunk chunk) h
    (fun hty => by simp [NewTextChunk] at hty)
  unfold textStep CallWithText
  rcases hr : invoke cb s.trace (NewTextChunk chunk) with ⟨tr, e⟩
  rw [hr] at hi
  cases e <;> exact ⟨hi.1, hi.2, rfl⟩

theorem loopBody_ids (jsonValid : String → Bool) (cb : Callback) (s : LoopState)
    (p : StreamedChatResponsePayload) (earlier : List StreamedChatResponsePayload)
    (h1 : toolCallIdsOK jsonValid s.trace []) (h2 : foldsOf s.trace = earlier)
    (h3 : s.toolCallID = completeCallsIn jsonValid earlier) :
    toolCallIdsOK jsonValid (loopBody jsonValid cb s p).1.trace [] ∧
    foldsOf (loopBody jsonValid cb s p).1.trace = earlier ++ [p] ∧
    (loopBody jsonValid cb s p).1.toolCallID = completeCallsIn jsonValid (earlier ++ [p]) := by
  have hf := toolCallIdsOK_snoc_fold jsonValid s.trace p h1
  have hfold : foldsOf (s.trace ++ [Event.fold p]) = earlier ++ [p] := by
    simp [foldsOf_append, foldsOf, h2]
  unfold loopBody
  cases hfc : p.FunctionCall with
  | none =>
    obtain ⟨t1, t2, t3⟩ := textStep_ids jsonValid cb
      { response := { s.response with Result := s.response.Result ++ p.Result,
                                      IsTruncated := p.IsTruncated },
        toolCallID := s.toolCallID, trace := s.trace ++ [Event.fold p] } p.Result hf
    refine ⟨t1, by rw [t2]; exact hfold, ?_⟩
    rw [t3, completeCallsIn_snoc]
    simp [completeCall, hfc, h3]
  | some functionCall =>
    have hcount : incToolCallID jsonValid s.toolCallID functionCall.Arguments
        = completeCallsIn jsonValid (earlier ++ [p]) := by
      rw [completeCallsIn_snoc, ← h3]
      unfold incToolCallID completeCall
      rw [hfc]
      by_cases hv : jsonValid functionCall.Arguments = true ∧ functionCall.Arguments ≠ ""
      · simp [hv]
      · have hv2 : ¬ (jsonValid functionCall.Arguments = true ∧
            ¬ functionCall.Arguments = "") := hv
        simp only [hv, if_false]
        simp only [not_and, not_not] at hv2
        by_cases hj : jsonValid functionCall.Arguments = true
        · simp [hj, hv2 hj]
        · simp [hj]
    have htool := invoke_ids jsonValid cb (s.trace ++ [Event.fold p])
      (NewToolCallChunk ⟨"call-" ++ toString s.toolCallID, functionCall.Name,
        functionCall.Arguments⟩) hf
      (fun _ => ⟨earlier, p, functionCall, hfold, hfc, by rw [h3]⟩)
    simp only [CallWithToolCall, CallWithReasoning]
    rcases hr1 : invoke cb (s.trace ++ [Event.fold p])
      (NewToolCallChunk ⟨"call-" ++ toString s.toolCallID, functionCall.Name,
        functionCall.Arguments⟩) with ⟨tr1, e1⟩
    rw [hr1] at htool
    simp only at htool
    cases e1 with
    | some err => exact ⟨htool.1, by rw [htool.2]; exact hfold, hcount⟩
    | none =>
      have hreas := invoke_ids jsonValid cb tr1 (NewReasoningChunk functionCall.Thoughts)
        htool.1 (fun hty => by simp [NewReasoningChunk] at hty)
      simp only
      rcases hr2 : invoke cb tr1 (NewReasoningChunk functionCall.Thoughts) with ⟨tr2, e2⟩
      rw [hr2] at hreas
      simp only at hreas
      cases e2 with
      | some err => exact ⟨hreas.1, by rw [hreas.2, htool.2]; exact hfold, hcount⟩
      | none =>
        simp only
        obtain ⟨t1, t2, t3⟩ := textStep_ids jsonValid cb
          { response := { s.response with Result := s.response.Result ++ p.Result,
                                          IsTruncated := p.IsTruncated,
                                          FunctionCall := some functionCall },
            toolCallID := incToolCallID jsonValid s.toolCallID functionCall.Arguments,
            trace := tr2 } p.Result hreas.1
        refine ⟨t1, by rw [t2]; simp only; rw [hreas.2, htool.2]; exact hfold, ?_⟩
        rw [t3]
        exact hcount

theorem rangeLoop_ids (jsonValid : String → Bool) (cb : Callback)
    (payloads earlier : List StreamedChatResponsePayload) (s : LoopState)
    (h1 : toolCallIdsOK jsonValid s.trace []) (h2 : foldsOf s.trace = earlier) :
    (s.toolCallID = completeCallsIn jsonValid earlier) →
    toolCallIdsOK jsonValid (rangeLoop jsonValid cb payloads s).1.trace [] ∧
    ∃ taken rest, payloads = taken ++ rest ∧
      foldsOf (rangeLoop jsonValid cb payloads s).1.trace = earlier ++ taken := by
  induction payloads generalizing s earlier with
  | nil =>
    intro _
    exact ⟨h1, [], [], rfl, by simpa using h2⟩
  | cons p rest ih =>
    intro h3
    obtain ⟨b1, b2, b3⟩ := loopBody_ids jsonValid cb s p earlier h1 h2 h3
    unfold rangeLoop
    rcases hr : loopBody jsonValid cb s p with ⟨s1, err⟩
    rw [hr] at b1 b2 b3
    simp only at b1 b2 b3
    cases err with
    | some e => exact ⟨b1, [p], rest, rfl, b2⟩
    | none =>
      simp only
      by_cases hend : p.IsEnd = true
      · simp only [hend, if_true]
        exact ⟨b1, [p], rest, rfl, b2⟩
      · have hstep : (if p.IsEnd = true then (s1, (none : Option GoError))
            else rangeLoop jsonValid cb rest s1) = rangeLoop jsonValid cb rest s1 := by
          simp [hend]
        rw [hstep]
        obtain ⟨i1, taken, rest1, i2, i3⟩ := ih (earlier ++ [p]) s1 b1 b2 b3
        refine ⟨i1, p :: taken, rest1, by rw [i2]; rfl, ?_⟩
        rw [i3]
        simp

/-- The ids in the trace of a whole call, and the payloads it folded. -/
theorem parse_ids (jsonValid : String → Bool) (cb : Callback)
    (payloads : List StreamedChatResponsePayload) :
    toolCallIdsOK jsonValid (parseStreamingChatResponse jsonValid cb payloads).trace [] ∧
    ∃ rest, payloads
      = foldsOf (parseStreamingChatResponse jsonValid cb payloads).trace ++ rest := by
  obtain ⟨h1, taken, rest, h2, h3⟩ := rangeLoop_ids jsonValid cb payloads []
    { response := ChatResponse.zero, toolCallID := 0, trace := [] } trivial rfl rfl
  unfold parseStreamingChatResponse
  rcases hr : rangeLoop jsonValid cb payloads
    { response := ChatResponse.zero, toolCallID := 0, trace := [] } with ⟨s, err⟩
  rw [hr] at h1 h3
  simp only at h1 h3
  have hd := invoke_ids jsonValid cb s.trace NewDoneChunk h1
    (fun hty => by simp [NewDoneChunk] at hty)
  cases err with
  | some e =>
    refine ⟨hd.1, rest, ?_⟩
    show payloads = foldsOf (invoke cb s.trace NewDoneChunk).1 ++ rest
    rw [hd.2, h3, h2]; rfl
  | none =>
    refine ⟨hd.1, rest, ?_⟩
    show payloads = foldsOf (invoke cb s.trace NewDoneChunk).1 ++ rest
    rw [hd.2, h3, h2]; rfl

/-- What `toolCallIdsOK` says about one tool-call chunk of a trace. -/
theorem toolCallIdsOK_at (jsonValid : String → Bool) (before after : List Event) (c : Chunk)
    (h : toolCallIdsOK jsonValid (before ++ Event.call c :: after) [])
    (hty : c.Type_ = ChunkType.ToolCall) :
    ∃ earlier p functionCall, foldsOf before = earlier ++ [p] ∧
      p.FunctionCall = some functionCall ∧
      c = NewToolCallChunk ⟨"call-" ++ toString (completeCallsIn jsonValid earlier),
        functionCall.Name, functionCall.Arguments⟩ := by
  have h2 := ((toolCallIdsOK_append jsonValid before (Event.call c :: after) []).1 h).2
  simp only [toolCallIdsOK, List.nil_append] at h2
  exact h2.1 hty

/-- C24.  For every payload sequence, every tool-call chunk dispatched to the
sink belongs to a payload of the stream that carries a function call, has that
function call's name and arguments, and has the id `call-k`, where k is the
number of earlier payloads whose function-call arguments are non-empty and by
themselves valid JSON.  The first payload with a function call therefore gets
`call-0`, and the ids do not decrease along the stream. -/
theorem tool_call_ids (jsonValid : String → Bool) (cb : Callback)
    (payloads : List StreamedChatResponsePayload) (before after : List Event) (c : Chunk)
    (htr : (parseStreamingChatResponse jsonValid cb payloads).trace
      = before ++ Event.call c :: after)
    (hty : c.Type_ = ChunkType.ToolCall) :
    ∃ earlier p functionCall later,
      payloads = earlier ++ p :: later ∧ foldsOf before = earlier ++ [p] ∧
      p.FunctionCall = some functionCall ∧
      c = NewToolCallChunk ⟨"call-" ++ toString (completeCallsIn jsonValid earlier),
        functionCall.Name, functionCall.Arguments⟩ ∧
      ((∀ q ∈ earlier, q.FunctionCall = none) → c.ToolCall.ID = "call-0") ∧
      (∀ mid c2 after2, after = mid ++ Event.call c2 :: after2 →
        c2.Type_ = ChunkType.ToolCall →
        ∃ k2, completeCallsIn jsonValid earlier ≤ k2 ∧
          c2.ToolCall.ID = "call-" ++ toString k2) := by
  obtain ⟨hok, rest, hpre⟩ := parse_ids jsonValid cb payloads
  rw [htr] at hok hpre
  obtain ⟨earlier, p, functionCall, hf, hfc, hc⟩ :=
    toolCallIdsOK_at jsonValid before after c hok hty
  refine ⟨earlier, p, functionCall, foldsOf after ++ rest, ?_, hf, hfc, hc, ?_, ?_⟩
  · rw [hpre, foldsOf_append, hf]
    simp [foldsOf]
  · intro hnone
    rw [hc, completeCallsIn_no_call jsonValid earlier hnone]
    rfl
  · intro mid c2 after2 hafter hty2
    rw [hafter] at hok
    have hok2 : toolCallIdsOK jsonValid
        ((before ++ Event.call c :: mid) ++ Event.call c2 :: after2) [] := by
      simpa using hok
    obtain ⟨earlier2, p2, functionCall2, hf2, _, hc2⟩ :=
      toolCallIdsOK_at jsonValid _ after2 c2 hok2 hty2
    refine ⟨completeCallsIn jsonValid earlier2, ?_, by rw [hc2]; rfl⟩
    have hfolds : earlier2 ++ [p2] = earlier ++ [p] ++ foldsOf mid := by
      rw [← hf2, foldsOf_append, hf]
      simp [foldsOf]
    rcases List.eq_nil_or_concat (foldsOf mid) with hnil | ⟨m, l, hm⟩
    · rw [hnil, List.append_nil] at hfolds
      have := (List.append_inj' hfolds rfl).1
      rw [this]
    · rw [hm, List.concat_eq_append, ← List.append_assoc] at hfolds
      have := (List.append_inj' hfolds rfl).1
      rw [this, completeCallsIn_append, completeCallsIn_append]
      omega

theorem tool_call_ids_witness :
    ∃ earlier p functionCall later,
      [functionCallPayload "f" "", functionCallPayload "f" "1", functionCallPayload "g" "2"]
        = earlier ++ p :: later ∧
      p.FunctionCall = some functionCall ∧
      NewToolCallChunk ⟨"call-1", "g", "2"⟩
        = NewToolCallChunk ⟨"call-" ++ toString (completeCallsIn (fun _ => true) earlier),
            functionCall.Name, functionCall.Arguments⟩ := by
  obtain ⟨earlier, p, functionCall, later, h1, _, h3, h4, _, _⟩ :=
    tool_call_ids (fun _ => true) (some acceptAll)
      [functionCallPayload "f" "", functionCallPayload "f" "1", functionCallPayload "g" "2"]
      [Event.fold (functionCallPayload "f" ""), Event.call (NewToolCallChunk ⟨"call-0", "f", ""⟩),
        Event.call (NewReasoningChunk ""), Event.call (NewTextChunk ""),
        Event.fold (functionCallPayload "f" "1"),
        Event.call (NewToolCallChunk ⟨"call-0", "f", "1"⟩),
        Event.call (NewReasoningChunk ""), Event.call (NewTextChunk ""),
        Event.fold (functionCallPayload "g" "2")]
      [Event.call (NewReasoningChunk ""), Event.call (NewTextChunk ""),
        Event.call NewDoneChunk]
      (NewToolCallChunk ⟨"call-1", "g", "2"⟩) (by decide) (by decide)
  exact ⟨earlier, p, functionCall, later, h1, h3, h4⟩

end ernieclient

namespace ernieclient

open streaming

/-! ## The function call of the response -/

/-- One iteration under a sink that never returns an error: a payload with a
function call replaces the function call of the response, whole. -/
theorem loopBody_functionCall (jsonValid : String → Bool)
    (f : List Chunk → Chunk → Option GoError) (hf : ∀ history c, f history c = none)
    (s : LoopState) (p : StreamedChatResponsePayload) :
    (loopBody jsonValid (some f) s p).1.response.FunctionCall
      = (match p.FunctionCall with
        | some functionCall => some functionCall
        | none => s.response.FunctionCall) := by
  unfold loopBody
  cases hfc : p.FunctionCall with
  | none => simp [textStep, CallWithText, invoke, hf]
  | some functionCall =>
    simp [textStep, CallWithText, CallWithToolCall, CallWithReasoning, invoke, hf]

theorem rangeLoop_functionCall (jsonValid : String → Bool)
    (f : List Chunk → Chunk → Option GoError) (hf : ∀ history c, f history c = none)
    (payloads : List StreamedChatResponsePayload) (s : LoopState) :
    (rangeLoop jsonValid (some f) payloads s).1.response.FunctionCall
      = (match lastFunctionCall (throughEnd payloads) with
        | some functionCall => some functionCall
        | none => s.response.FunctionCall) := by
  induction payloads generalizing s with
  | nil => rfl
  | cons p rest ih =>
    have h1 := loopBody_functionCall jsonValid f hf s p
    have h2 := (loopBody_accept jsonValid f hf s p).1
    unfold rangeLoop
    rcases hr : loopBody jsonValid (some f) s p with ⟨s1, err⟩
    rw [hr] at h1 h2
    simp only at h1 h2
    subst h2
    simp only
    by_cases hend : p.IsEnd = true
    · simp only [hend, if_true, throughEnd, lastFunctionCall, h1]
    · have hstep : (if p.IsEnd = true then (s1, (none : Option GoError))
          else rangeLoop jsonValid (some f) rest s1) = rangeLoop jsonValid (some f) rest s1 := by
        simp [hend]
      have ht : throughEnd (p :: rest) = p :: throughEnd rest := by simp [throughEnd, hend]
      rw [hstep, ih s1, ht, h1]
      simp only [lastFunctionCall]
      cases lastFunctionCall (throughEnd rest) <;> rfl

theorem toolCallArguments_append (a b : List Chunk) :
    toolCallArguments (a ++ b) = toolCallArguments a ++ toolCallArguments b := by
  induction a with
  | nil => rfl
  | cons c a ih =>
    by_cases h : c.Type_ = ChunkType.ToolCall <;> simp [toolCallArguments, h, ih]

theorem toolCallArguments_expectedCalls (jsonValid : String → Bool)
    (earlier payloads : List StreamedChatResponsePayload) :
    toolCallArguments (expectedCalls jsonValid earlier payloads)
      = functionCallArguments payloads := by
  induction payloads generalizing earlier with
  | nil => rfl
  | cons p rest ih =>
    simp only [expectedCalls, toolCallArguments_append, ih, functionCallArguments, payloadChunks]
    cases p.FunctionCall <;>
      simp [toolCallArguments, NewToolCallChunk, NewReasoningChunk, NewTextChunk]

/-- C11 (amended).  For every payload sequence and every sink that never
returns an error, the function call of the final response is the function call
of the last payload, up to and including the first one with `is_end`, that
carries one: it has that payload's arguments alone, not a concatenation.  The
sink receives one tool-call chunk for each payload with a function call, in
stream order, with the arguments of that payload. -/
theorem function_call_is_last_payload (jsonValid : String → Bool)
    (f : List Chunk → Chunk → Option GoError) (payloads : List StreamedChatResponsePayload)
    (hf : ∀ history c, f history c = none) :
    ∃ resp, (parseStreamingChatResponse jsonValid (some f) payloads).response = some resp ∧
      resp.FunctionCall = lastFunctionCall (throughEnd payloads) ∧
      toolCallArguments (parseStreamingChatResponse jsonValid (some f) payloads).calls
        = functionCallArguments (throughEnd payloads) := by
  have h1 := rangeLoop_functionCall jsonValid f hf payloads
    { response := ChatResponse.zero, toolCallID := 0, trace := [] }
  have h2 := (rangeLoop_accept jsonValid f hf payloads
    { response := ChatResponse.zero, toolCallID := 0, trace := [] }).1
  have h3 := rangeLoop_calls jsonValid f hf payloads []
    { response := ChatResponse.zero, toolCallID := 0, trace := [] } rfl
  unfold Outcome.calls parseStreamingChatResponse
  rcases hr : rangeLoop jsonValid (some f) payloads
    { response := ChatResponse.zero, toolCallID := 0, trace := [] } with ⟨s, err⟩
  rw [hr] at h1 h2 h3
  simp only at h1 h2 h3
  subst h2
  refine ⟨s.response, rfl, ?_, ?_⟩
  · rw [h1]
    cases lastFunctionCall (throughEnd payloads) <;> rfl
  · simp only [CallWithDone, invoke, callsOf_append, h3, callsOf, List.nil_append,
      toolCallArguments_append, toolCallArguments_expectedCalls]
    simp [toolCallArguments, NewDoneChunk]

theorem function_call_is_last_payload_witness :
    (∀ history c, acceptAll history c = none) ∧
    ∃ resp, (parseStreamingChatResponse (fun _ => false) (some acceptAll)
        [functionCallPayload "f" "\x7b\"a\":", functionCallPayload "f" "1\x7d"]).response
          = some resp ∧
      resp.FunctionCall = some { Name := "f", Thoughts := "", Arguments := "1\x7d" } ∧
      toolCallArguments (parseStreamingChatResponse (fun _ => false) (some acceptAll)
        [functionCallPayload "f" "\x7b\"a\":", functionCallPayload "f" "1\x7d"]).calls
        = ["\x7b\"a\":", "1\x7d"] := by
  obtain ⟨resp, h1, h2, h3⟩ := function_call_is_last_payload (fun _ => false) acceptAll
    [functionCallPayload "f" "\x7b\"a\":", functionCallPayload "f" "1\x7d"] (fun _ _ => rfl)
  refine ⟨fun _ _ => rfl, resp, h1, ?_, ?_⟩
  · rw [h2]; decide
  · rw [h3]; decide

end ernieclient
